import Mathlib

/-!
# Verification of the congress-bill-stats sponsor/co-sponsor core

Shallow embedding of the name-normalization, action-log parsing, name
matching, aggregation and scoring logic of the repository
(`backend/illinois_stats.py` and `backend/main.py`), together with proofs
about the embedded definitions.

Python strings are modelled as `String`/`List Char`; `None`-able strings are
modelled by `""` where the Python code only tests truthiness (Python treats
`""` and `None` the same way under `if not s`). Whitespace and word
characters follow Python's ASCII semantics (the data processed by the
program is ASCII action text); `str.lower` is modelled by `Char.toLower`,
which agrees with Python on ASCII.
-/

namespace CBS

/-- ASCII whitespace, as matched by Python's `str.split`/`str.strip` and `\s`. -/
def isPySpace (c : Char) : Bool :=
  c = ' ' || c = '\t' || c = '\n' || c = '\r' || c = '\x0b' || c = '\x0c'

/-- Word character for Python's `\b` word boundaries (ASCII `\w`). -/
def isWordChar (c : Char) : Bool :=
  c.isAlphanum || c = '_'

/-- Case-insensitive character comparison (Python `re.IGNORECASE` on ASCII). -/
def ciEq (c d : Char) : Bool :=
  c.toLower = d.toLower

/-- Drop leading Python whitespace. -/
def dropSpace (l : List Char) : List Char :=
  l.dropWhile isPySpace

/-- Python `str.strip()`: drop leading and trailing whitespace. -/
def pyStripL (l : List Char) : List Char :=
  ((dropSpace l).reverse.dropWhile isPySpace).reverse

/-- Helper for `pySplitL`: accumulate the current word (reversed) while
splitting on whitespace runs. -/
def splitAux : List Char → List Char → List (List Char)
  | [], acc => if acc = [] then [] else [acc.reverse]
  | c :: rest, acc =>
    if isPySpace c then
      if acc = [] then splitAux rest [] else acc.reverse :: splitAux rest []
    else
      splitAux rest (c :: acc)

/-- Python `str.split()` with no argument: split on whitespace runs,
discarding empty fields. -/
def pySplitL (l : List Char) : List (List Char) :=
  splitAux l []

/-- Python `' '.join(words)`. -/
def joinSpaceL : List (List Char) → List Char
  | [] => []
  | [w] => w
  | w :: ws => w ++ ' ' :: joinSpaceL ws

/-- Python `str.lower()` (ASCII). -/
def lowerL (l : List Char) : List Char :=
  l.map Char.toLower

/-- Python `str.lower()` at `String` level (kernel-reducible). -/
def pyLowerS (s : String) : String :=
  String.mk (lowerL s.data)

/-- The final normalization step of `normalize_name`:
`' '.join(name.split()).lower().strip()`. -/
def canonL (l : List Char) : List Char :=
  pyStripL (lowerL (joinSpaceL (pySplitL l)))

/-- Does `l` start with token `tok` case-insensitively? (`tok` is lowercase.) -/
def ciStartsWith (tok l : List Char) : Bool :=
  lowerL (l.take tok.length) = tok

/-- Is the character right after position `n` of `l` Python whitespace? -/
def hasSpaceAt (l : List Char) (n : Nat) : Bool :=
  match l.drop n with
  | c :: _ => isPySpace c
  | [] => false

/-- Title tokens of `TITLE_PATTERN = ^(Rep\.|Sen\.|Representative|Senator)\s+`,
in the regex's alternation order. -/
def titleTokens : List (List Char) :=
  ["rep.".data, "sen.".data, "representative".data, "senator".data]

/-- One application of `TITLE_PATTERN.sub('', ·)`: strip a leading title token
followed by at least one whitespace character, consuming the greedy `\s+` run.
(The pattern is anchored with `^`, so `re.sub` performs at most one removal.) -/
def stripTitleTokens (toks : List (List Char)) (l : List Char) : List Char :=
  match toks.find? (fun tok => ciStartsWith tok l && hasSpaceAt l tok.length) with
  | some tok => dropSpace (l.drop tok.length)
  | none => l

def stripOneTitle (l : List Char) : List Char :=
  stripTitleTokens titleTokens l

/-- Generational-suffix tokens of
`SUFFIX_PATTERN = ,?\s+(Jr\.?|Sr\.?|II|III|IV|V)$`. With the `$` anchor the
token must be the entire remainder, so the optional-dot/alternation order
collapses to set membership. -/
def suffixTokens : List (List Char) :=
  ["jr.".data, "jr".data, "sr.".data, "sr".data, "ii".data, "iii".data,
   "iv".data, "v".data]

def isSuffixToken (l : List Char) : Bool :=
  suffixTokens.any (fun t => lowerL l = t)

/-- Does `SUFFIX_PATTERN` match starting exactly at the head of `m` (reaching
the end of the string)? `,?` tries a comma first; `\s+` is a nonempty
whitespace run; the token must fill the rest (the `$`). -/
def suffixMatchesHere (m : List Char) : Bool :=
  match m with
  | ',' :: rest => spaceThenSuffixToken rest
  | _ => spaceThenSuffixToken m
where
  spaceThenSuffixToken : List Char → Bool
    | [] => false
    | c :: rest =>
      isPySpace c && isSuffixToken ((c :: rest).dropWhile isPySpace)

/-- `SUFFIX_PATTERN.sub('', l)`: remove the leftmost (hence only) end-anchored
match. The result is the prefix before the leftmost matching position. -/
def suffixSubAux : List Char → List Char
  | [] => []
  | c :: rest =>
    if suffixMatchesHere (c :: rest) then [] else c :: suffixSubAux rest

/-- `normalize_name` from `illinois_stats.py`:
strip title prefix, strip generational suffix, collapse whitespace and
lowercase. -/
def normalizeNameL (l : List Char) : List Char :=
  if l = [] then []
  else canonL (suffixSubAux (stripOneTitle (pyStripL l)))

def normalize_name (s : String) : String :=
  String.mk (normalizeNameL s.data)

/-- `normalize_name_for_lookup`: reduce the normalized name to
`"{first} {last}"` when at least two tokens remain. -/
def normalizeNameForLookupL (l : List Char) : List Char :=
  let n := normalizeNameL l
  match pySplitL n with
  | p0 :: p1 :: rest => p0 ++ ' ' :: lastWord p1 rest
  | _ => n
where
  lastWord (x : List Char) : List (List Char) → List Char
    | [] => x
    | y :: ys => lastWord y ys

def normalize_name_for_lookup (s : String) : String :=
  String.mk (normalizeNameForLookupL s.data)

/-- `String`-level wrapper for the title-stripping step (used to state when a
normalized name is a fixpoint of `TITLE_PATTERN.sub`). -/
def titleSubStr (s : String) : String :=
  String.mk (stripOneTitle s.data)

/-- `String`-level wrapper for the suffix-stripping step. -/
def suffixSubStr (s : String) : String :=
  String.mk (suffixSubAux s.data)

/-! ## Action-log text utilities (`illinois_stats.py`) -/

/-- One Illinois action entry as produced by `_parse_actions`. -/
structure ILAction where
  date : String
  text : String
  chamber : String
deriving DecidableEq, Repr

/-- `_normalize_action_text`: `' '.join((text or "").split())`. -/
def normalizeActionTextL (l : List Char) : List Char :=
  joinSpaceL (pySplitL l)

def normalizeActionText (s : String) : String :=
  String.mk (normalizeActionTextL s.data)

/-- `_strip_title_prefix`: `TITLE_PATTERN.sub('', name.strip()).strip()`. -/
def stripTitlePreL (l : List Char) : List Char :=
  pyStripL (stripOneTitle (pyStripL l))

/-- `_strip_action_suffixes`: text before the first `(`, stripped, with
trailing `' '`, `','`, `';'` removed. -/
def stripActionSuffixesL (l : List Char) : List Char :=
  (((pyStripL (l.takeWhile (fun c => c ≠ '('))).reverse.dropWhile
    (fun c => c = ' ' || c = ',' || c = ';')).reverse)

/-- Tokens of the leading-title pattern used in `_split_name_list`
(`^(Reps?\.|Rep\.|Sens?\.|Sen\.|Representatives?|Senators?)\s+`), flattened
so that the first token matching with a following space wins, like the
regex's alternation with greedy `s?`. -/
def listTitleTokens : List (List Char) :=
  ["reps.".data, "rep.".data, "sens.".data, "sen.".data,
   "representatives".data, "representative".data,
   "senators".data, "senator".data]

def stripListTitle (l : List Char) : List Char :=
  stripTitleTokens listTitleTokens l

/-- Python `\b` immediately after a token whose last character is `last`,
looking at the remaining characters `rest`. -/
def boundaryAfter (last : Char) (rest : List Char) : Bool :=
  if isWordChar last then
    match rest with
    | [] => true
    | c :: _ => !isWordChar c
  else
    match rest with
    | [] => false
    | c :: _ => isWordChar c

/-- Suffix tokens of `,\s*(Jr\.?|Sr\.?|II|III|IV|V)\b` in backtracking order:
each optional dot is tried greedily (with the dot first), and a token only
matches when followed by a Python word boundary. -/
def commaSuffixTokens : List (List Char) :=
  ["jr.".data, "jr".data, "sr.".data, "sr".data, "ii".data, "iii".data,
   "iv".data, "v".data]

/-- Try to match `\s*(TOKEN)\b` at the head of `rest` (the text after a
comma). Returns the length of the whitespace run and the matched token
length. -/
def commaSuffixMatch (rest : List Char) : Option (Nat × Nat) :=
  let ws := rest.takeWhile isPySpace
  let after := rest.drop ws.length
  match commaSuffixTokens.find? (fun tok =>
      ciStartsWith tok after &&
      (match (after.take tok.length).getLast? with
       | some lastc => boundaryAfter lastc (after.drop tok.length)
       | none => false)) with
  | some tok => some (ws.length, tok.length)
  | none => none

/-- `re.sub(r',\s*(Jr\.?|Sr\.?|II|III|IV|V)\b', r' \1', ·)`: replace every
non-overlapping `", Jr."`-style occurrence by a space plus the token. -/
def protectSuffixCommas : List Char → List Char
  | [] => []
  | c :: rest =>
    if c = ',' then
      match commaSuffixMatch rest with
      | some (wsn, tokn) =>
        ' ' :: ((rest.drop wsn).take tokn ++ protectSuffixCommas ((rest.drop wsn).drop tokn))
      | none => c :: protectSuffixCommas rest
    else c :: protectSuffixCommas rest
termination_by l => l.length
decreasing_by
  all_goals simp_wf
  all_goals omega

/-- Match `\s+and\s+` (case-insensitive) at the head of `l`; returns the
total matched length. -/
def andSepMatch (l : List Char) : Option Nat :=
  let ws1 := l.takeWhile isPySpace
  if ws1.length = 0 then none
  else
    let after := l.drop ws1.length
    if ciStartsWith "and".data after then
      let ws2 := (after.drop 3).takeWhile isPySpace
      if ws2.length = 0 then none
      else some (ws1.length + 3 + ws2.length)
    else none

/-- `re.sub(r'\s+and\s+', ', ', ·, flags=IGNORECASE)`, all non-overlapping
occurrences. When a match of length `n` is found its first character is the
head `c` (the match starts with `\s+`), so continuing after the match end is
dropping `n - 1` characters of the tail. -/
def andToComma : List Char → List Char
  | [] => []
  | c :: rest =>
    match andSepMatch (c :: rest) with
    | some n => ',' :: ' ' :: andToComma (rest.drop (n - 1))
    | none => c :: andToComma rest
termination_by l => l.length
decreasing_by
  all_goals simp_wf
  all_goals omega

/-- Split on `','` (Python `str.split(',')`), keeping empty fields. -/
def splitOnComma : List Char → List (List Char)
  | [] => [[]]
  | c :: rest =>
    if c = ',' then [] :: splitOnComma rest
    else
      match splitOnComma rest with
      | [] => [[c]]
      | p :: ps => (c :: p) :: ps

/-- `_split_name_list` from `illinois_stats.py`. -/
def splitNameListL (raw : List Char) : List (List Char) :=
  if raw = [] then []
  else
    let text := pyStripL raw
    let text :=
      match text with
      | '(' :: rest =>
        if text.getLast? = some ')' then pyStripL (rest.dropLast) else text
      | _ => text
    let text := stripListTitle text
    let text := protectSuffixCommas text
    let text := andToComma text
    let parts := (splitOnComma text).map pyStripL |>.filter (fun p => p ≠ [])
    (parts.map (fun p => stripActionSuffixesL (stripListTitle p))).filter
      (fun p => p ≠ [])

def splitNameList (s : String) : List String :=
  (splitNameListL s.data).map String.mk

/-! ## Regex searches over action text

The action text handed to these searches has been normalized by
`_normalize_action_text`, so it contains no newline characters; `$` and `.`
therefore have their simple meanings. -/

/-- Match a literal token case-insensitively at the head, returning the rest. -/
def matchTokCI (tok : String) (l : List Char) : Option (List Char) :=
  if ciStartsWith tok.data l then some (l.drop tok.data.length) else none

/-- Match `\s+` (nonempty whitespace run, greedy) at the head. -/
def wsPlus (l : List Char) : Option (List Char) :=
  match l with
  | c :: _ => if isPySpace c then some (l.dropWhile isPySpace) else none
  | [] => none

/-- Match `Sponsors?\b` case-insensitively at the head: the greedy optional
`s` is kept only when the word boundary after it succeeds; otherwise the
engine backtracks to the dotless form, which then needs a boundary after
`r`. -/
def matchSponsorWord (l : List Char) : Option (List Char) :=
  match matchTokCI "sponsor" l with
  | none => none
  | some rest =>
    match rest with
    | [] => some []
    | s :: rest2 =>
      if s.toLower = 's' then
        match rest2 with
        | [] => some []
        | d :: _ => if isWordChar d then none else some rest2
      else if isWordChar s then none else some rest

/-- Match `FIRST\s+(Chief\s+)?Co-?Sponsors?\b` at the head of `l` (the co-
sponsor action patterns of `illinois_stats.py`), returning the text after
the match. -/
def matchCoPatternAt (first : String) (withChief : Bool) (l : List Char) : Option (List Char) :=
  match matchTokCI first l with
  | none => none
  | some r0 =>
    match wsPlus r0 with
    | none => none
    | some r1 =>
      let afterChief : Option (List Char) :=
        if withChief then
          match matchTokCI "chief" r1 with
          | none => none
          | some r2 => wsPlus r2
        else some r1
      match afterChief with
      | none => none
      | some r3 =>
        match matchTokCI "co" r3 with
        | none => none
        | some r4 =>
          let r5 := match r4 with
            | '-' :: r => r
            | r => r
          matchSponsorWord r5

/-- Leftmost search for one of the four co-sponsor action patterns
(`\bAdded\s+Chief\s+Co-?Sponsors?\b` and friends); `prevWord` tracks whether
the previous character is a word character (for the leading `\b`). Returns
the text after the match end (what `text[match.end():]` yields). -/
def searchCoPattern (first : String) (withChief : Bool) : Bool → List Char → Option (List Char)
  | _, [] => none
  | prevW, c :: rest =>
    match (if prevW then none else matchCoPatternAt first withChief (c :: rest)) with
    | some r => some r
    | none => searchCoPattern first withChief (isWordChar c) rest

/-- `_extract_names_from_action`: take the tail after the pattern match,
strip it, strip leading `':'`/`' '`/`'-'` characters (`lstrip(": -")`), and
split the name list. -/
def extractNamesFromAction (first : String) (withChief : Bool) (text : List Char) : List (List Char) :=
  if text = [] then []
  else
    match searchCoPattern first withChief false text with
    | none => []
    | some tail =>
      splitNameListL ((pyStripL tail).dropWhile (fun c => c = ':' || c = ' ' || c = '-'))

/-- Match `\b(Prefiled|Filed)\b` at the head, returning the rest after the
word. -/
def matchFiledWordAt (l : List Char) : Option (List Char) :=
  match matchTokCI "prefiled" l with
  | some r => filedBoundary r
  | none =>
    match matchTokCI "filed" l with
    | some r => filedBoundary r
    | none => none
where
  filedBoundary : List Char → Option (List Char)
    | [] => some []
    | c :: rest => if isWordChar c then none else some (c :: rest)

/-- Find the last `\bby\b\s+(.+)$` in `l` (the greedy `.*` of
`PRIMARY_FILED_PATTERN` picks the last qualifying `by`), returning the
capture group after the whitespace run. -/
def findLastByAux : Bool → List Char → Option (List Char)
  | _, [] => none
  | prevW, c :: rest =>
    let here : Option (List Char) :=
      if prevW then none
      else
        match matchTokCI "by" (c :: rest) with
        | none => none
        | some r =>
          match r with
          | [] => none
          | d :: _ =>
            if isWordChar d then none
            else
              match wsPlus r with
              | none => none
              | some payload => if payload = [] then none else some payload
    match findLastByAux (isWordChar c) rest with
    | some later => some later
    | none => here

/-- `PRIMARY_FILED_PATTERN.search(text).group(2)`: leftmost
`\b(Prefiled|Filed)\b` whose remainder contains a word-bounded `by` followed
by whitespace and at least one character; the group is everything after that
whitespace run. -/
def searchPrimaryFiledGroup2 : Bool → List Char → Option (List Char)
  | _, [] => none
  | prevW, c :: rest =>
    let here : Option (List Char) :=
      if prevW then none
      else
        match matchFiledWordAt (c :: rest) with
        | some r => findLastByAux true r
        | none => none
    match here with
    | some payload => some payload
    | none => searchPrimaryFiledGroup2 (isWordChar c) rest

/-- Case-insensitive substring search for any of `toks` (no word
boundaries), as in the `(Rep\.|Sen\.|Representative|Senator)` title check of
`_extract_primary_sponsor_from_actions`. -/
def containsTokenCI (toks : List (List Char)) : List Char → Bool
  | [] => false
  | c :: rest => toks.any (fun t => ciStartsWith t (c :: rest)) || containsTokenCI toks rest

/-- Word-bounded case-insensitive alternation search, for
`_infer_chamber_from_name`'s `\b(Sen\.|Senator)\b` / `\b(Rep\.|Representative)\b`. -/
def searchAltWordCI (toks : List (List Char)) : Bool → List Char → Bool
  | _, [] => false
  | prevW, c :: rest =>
    (if prevW then false
     else
       toks.any (fun t =>
         ciStartsWith t (c :: rest) &&
         (match ((c :: rest).take t.length).getLast? with
          | some lastc => boundaryAfter lastc ((c :: rest).drop t.length)
          | none => false)))
    || searchAltWordCI toks (isWordChar c) rest

/-- `_infer_chamber_from_name`. Note the trailing `\b` of the patterns: a
title like `"Sen. Smith"` does *not* match (`.` is a non-word character and
the next character is a space), while `"Senator Smith"` does. -/
def inferChamberFromName (raw : String) : Option String :=
  if raw = "" then none
  else if searchAltWordCI ["sen.".data, "senator".data] false raw.data then some "senate"
  else if searchAltWordCI ["rep.".data, "representative".data] false raw.data then some "house"
  else none

/-! ## Date parsing and primary-sponsor extraction -/

def isDigitChar (c : Char) : Bool :=
  '0' ≤ c && c ≤ '9'

def digitsToNat (l : List Char) : Nat :=
  l.foldl (fun a c => a * 10 + (c.toNat - 48)) 0

def isLeapYear (y : Nat) : Bool :=
  y % 4 = 0 && (y % 100 ≠ 0 || y % 400 = 0)

def daysInMonth (y m : Nat) : Nat :=
  if m = 2 then (if isLeapYear y then 29 else 28)
  else if m = 4 || m = 6 || m = 9 || m = 11 then 30
  else 31

/-- `_parse_action_date`: `datetime.strptime(date_str.strip(), "%m/%d/%Y")`,
`None` on failure. Month and day are 1–2 digits, the year exactly 4 digits,
nothing may remain, and the calendar ranges are validated. -/
def parseDateMDY (s : String) : Option (Nat × Nat × Nat) :=
  let l := pyStripL s.data
  let mRun := l.takeWhile isDigitChar
  if mRun.length = 0 || mRun.length > 2 then none
  else
    match l.drop mRun.length with
    | '/' :: rest1 =>
      let dRun := rest1.takeWhile isDigitChar
      if dRun.length = 0 || dRun.length > 2 then none
      else
        match rest1.drop dRun.length with
        | '/' :: rest2 =>
          let yRun := rest2.takeWhile isDigitChar
          if yRun.length ≠ 4 || rest2.drop yRun.length ≠ [] then none
          else
            let m := digitsToNat mRun
            let d := digitsToNat dRun
            let y := digitsToNat yRun
            if 1 ≤ m && m ≤ 12 && 1 ≤ d && d ≤ daysInMonth y m && 1 ≤ y then
              some (y, m, d)
            else none
        | _ => none
    | _ => none

/-- Sort key of a primary-sponsor candidate:
`(date is None, date or datetime.max, index)` encoded as
`(noDate, year, month, day, index)` compared lexicographically. -/
def candKey (dt : Option (Nat × Nat × Nat)) (idx : Nat) : Nat × Nat × Nat × Nat × Nat :=
  match dt with
  | some (y, m, d) => (0, y, m, d, idx)
  | none => (1, 9999, 12, 31, idx)

def keyLt : Nat × Nat × Nat × Nat × Nat → Nat × Nat × Nat × Nat × Nat → Bool
  | (a1, a2, a3, a4, a5), (b1, b2, b3, b4, b5) =>
    decide (a1 < b1) || (decide (a1 = b1) &&
      (decide (a2 < b2) || (decide (a2 = b2) &&
        (decide (a3 < b3) || (decide (a3 = b3) &&
          (decide (a4 < b4) || (decide (a4 = b4) && decide (a5 < b5))))))))

/-- Candidate list of `_extract_primary_sponsor_from_actions`, in document
order, each with its sort key. -/
def primaryCandidatesAux (idx : Nat) : List ILAction → List ((Nat × Nat × Nat × Nat × Nat) × List Char)
  | [] => []
  | a :: rest =>
    let tail := primaryCandidatesAux (idx + 1) rest
    let text := normalizeActionTextL a.text.data
    if text = [] then tail
    else
      match searchPrimaryFiledGroup2 false text with
      | none => tail
      | some group2 =>
        let nameText := stripActionSuffixesL group2
        if !containsTokenCI
            ["rep.".data, "sen.".data, "representative".data, "senator".data]
            nameText then tail
        else
          let cleaned := stripTitlePreL nameText
          if cleaned = [] then tail
          else (candKey (parseDateMDY a.date) idx, cleaned) :: tail

/-- Minimum of the candidate list under the sort key (ties are impossible,
indices being distinct, so this equals the head of the stable sort). -/
def pickMinCand : List ((Nat × Nat × Nat × Nat × Nat) × List Char) →
    Option ((Nat × Nat × Nat × Nat × Nat) × List Char)
  | [] => none
  | c :: rest =>
    match pickMinCand rest with
    | none => some c
    | some best => if keyLt best.1 c.1 then some best else some c

/-- `_extract_primary_sponsor_from_actions`. -/
def extractPrimarySponsorFromActions (actions : List ILAction) : Option String :=
  (pickMinCand (primaryCandidatesAux 0 actions)).map (fun c => String.mk c.2)

/-! ## Sponsor-change state machine (`_apply_sponsor_action` and
`_extract_sponsor_changes_from_actions`) -/

/-- Delete the first entry whose normalized name equals `key`. -/
def removeFirstByKey : List String → String → List String
  | [], _ => []
  | e :: rest, key =>
    if normalize_name e = key then rest else e :: removeFirstByKey rest key

/-- `_apply_sponsor_action`: add with normalized-key de-duplication, or
remove the first normalized-key match. -/
def applySponsorAction (names : List String) (name : String) (add : Bool) : List String :=
  if name = "" then names
  else
    let key := normalize_name name
    if key = "" then names
    else if add then
      if names.any (fun e => normalize_name e = key) then names else names ++ [name]
    else removeFirstByKey names key

/-- One action step of `_extract_sponsor_changes_from_actions`: the four
patterns are tested in priority order
added-chief → removed-chief → added-co → removed-co. -/
def sponsorChangeStep (st : List String × List String) (a : ILAction) : List String × List String :=
  let text := normalizeActionTextL a.text.data
  if text = [] then st
  else if (searchCoPattern "added" true false text).isSome then
    (extractNamesFromAction "added" true text).foldl
      (fun (p : List String × List String) n =>
        (applySponsorAction p.1 (String.mk n) true,
         applySponsorAction p.2 (String.mk n) false)) st
  else if (searchCoPattern "removed" true false text).isSome then
    (extractNamesFromAction "removed" true text).foldl
      (fun (p : List String × List String) n =>
        (applySponsorAction p.1 (String.mk n) false, p.2)) st
  else if (searchCoPattern "added" false false text).isSome then
    (extractNamesFromAction "added" false text).foldl
      (fun (p : List String × List String) n =>
        if p.1.any (fun e => normalize_name e = normalize_name (String.mk n)) then p
        else (p.1, applySponsorAction p.2 (String.mk n) true)) st
  else if (searchCoPattern "removed" false false text).isSome then
    (extractNamesFromAction "removed" false text).foldl
      (fun (p : List String × List String) n =>
        (p.1, applySponsorAction p.2 (String.mk n) false)) st
  else st

/-- `_extract_sponsor_changes_from_actions`: fold the per-action step over
the document-ordered action list, starting from empty tiers.
Returns `(chief_co, co)`. -/
def extractSponsorChangesFromActions (actions : List ILAction) : List String × List String :=
  actions.foldl sponsorChangeStep ([], [])

/-! ## Public Act detection (`PUBLIC_ACT_PATTERN`) -/

/-- Match `Public\s+Act\s*[.\s]*(\d{3}-\d{4})` at the head of `l`, returning
the captured law number. -/
def matchPublicActAt (l : List Char) : Option (List Char) :=
  match matchTokCI "public" l with
  | none => none
  | some r0 =>
    match wsPlus r0 with
    | none => none
    | some r1 =>
      match matchTokCI "act" r1 with
      | none => none
      | some r2 =>
        let r3 := r2.dropWhile (fun c => isPySpace c || c = '.')
        let d1 := r3.take 3
        if d1.length = 3 && d1.all isDigitChar then
          match r3.drop 3 with
          | '-' :: r4 =>
            let d2 := r4.take 4
            if d2.length = 4 && d2.all isDigitChar then some (d1 ++ '-' :: d2)
            else none
          | _ => none
        else none

/-- `PUBLIC_ACT_PATTERN.search(text)` with `group(1)`: leftmost match wins. -/
def searchPublicActAux : List Char → Option (List Char)
  | [] => none
  | c :: rest =>
    match matchPublicActAt (c :: rest) with
    | some g => some g
    | none => searchPublicActAux rest

def searchPublicAct (s : String) : Option String :=
  (searchPublicActAux s.data).map String.mk

/-! ## Name matcher (`ILNameMatcher`) -/

/-- One Illinois legislator record as produced by `parse_members_xml`. -/
structure ILMember where
  member_id : String
  name : String
  first_name : String
  last_name : String
  party : String
  chamber : String
  district : Nat
deriving DecidableEq, Repr

/-- Lookup in `lookup_exact`: the dict maps each nonempty normalized name to
the member assigned last (plain dict assignment overwrites). -/
def findExact (members : List ILMember) (k : String) : Option ILMember :=
  if k = "" then none
  else (members.filter (fun m => normalize_name m.name = k)).getLast?

/-- The `"{first.lower()} {last.lower()}"` key of `lookup_simple`. -/
def simpleKey (m : ILMember) : String :=
  pyLowerS m.first_name ++ " " ++ pyLowerS m.last_name

/-- Lookup in `lookup_simple`: built with `if simple_key not in ...`, so the
first member wins on collision; members lacking a first or last name are not
indexed. -/
def findSimple (members : List ILMember) (k : String) : Option ILMember :=
  (members.filter (fun m => m.first_name ≠ "" && m.last_name ≠ "" && simpleKey m = k)).head?

/-- Lookup in `lookup_last`: all members with the given lowercased last
name, in list order. -/
def lastCands (members : List ILMember) (ln : String) : List ILMember :=
  members.filter (fun m => m.last_name ≠ "" && pyLowerS m.last_name = ln)

/-- The last whitespace-token of a string (`s.split()[-1]`), if any. -/
def lastTokenOf (s : String) : Option String :=
  match pySplitL s.data with
  | [] => none
  | w :: ws => some (String.mk (lastWordAux w ws))
where
  lastWordAux (x : List Char) : List (List Char) → List Char
    | [] => x
    | y :: ys => lastWordAux y ys

/-- An entry of the matcher's `unmatched` list. -/
structure UnmatchedEntry where
  name : String
  chamber : String
  normalized : String
deriving DecidableEq, Repr

/-- Result of one `ILNameMatcher.match` call: the matched member (if any)
and the entry appended to the matcher's `unmatched` list (if any). -/
structure MatchOutcome where
  result : Option ILMember
  logged : Option UnmatchedEntry
deriving DecidableEq, Repr

/-- The `lookup_last` candidate list for strategy 3 of
`ILNameMatcher.match`: the members sharing the last token of the normalized
name (empty when the normalized name has no tokens). -/
def matchCands (members : List ILMember) (sponsorName : String) : List ILMember :=
  match lastTokenOf (normalize_name sponsorName) with
  | some lastName => lastCands members lastName
  | none => []

/-- The chamber-filtered candidates (`if chamber and candidates:` guard of
the source; `[]` when the guard is falsy). -/
def matchFiltered (members : List ILMember) (sponsorName chamber : String) :
    List ILMember :=
  if chamber ≠ "" && matchCands members sponsorName ≠ [] then
    (matchCands members sponsorName).filter (fun m => m.chamber = chamber)
  else []

/-- `ILNameMatcher.match(sponsor_name, chamber)`. The chamber hint is a
string, `""` playing the role of Python's `None`/falsy default. -/
def ilMatch (members : List ILMember) (sponsorName : String) (chamber : String) : MatchOutcome :=
  if sponsorName = "" then ⟨none, none⟩
  else
    let exactKey := normalize_name sponsorName
    match findExact members exactKey with
    | some m => ⟨some m, none⟩
    | none =>
      match findSimple members (normalize_name_for_lookup sponsorName) with
      | some m => ⟨some m, none⟩
      | none =>
        match matchFiltered members sponsorName chamber with
        | [f] => ⟨some f, none⟩
        | _ =>
          match matchCands members sponsorName with
          | [c] => ⟨some c, none⟩
          | _ => ⟨none, some ⟨sponsorName, chamber, exactKey⟩⟩

/-! ## Illinois aggregation (`build_il_stats`, step 5) -/

/-- One parsed Illinois bill, restricted to the fields read by the
aggregation loop (titles/synopses and latest-action metadata do not affect
any counter). `""` models an absent string field. -/
structure ILBill where
  bill_id : String
  bill_type : String
  primary_sponsor_name : String
  sponsor_name_raw : String
  chief_co_sponsors : List String
  co_sponsors : List String
  public_act_number : String
deriving DecidableEq, Repr

/-- A per-legislator row of `by_member`. -/
structure ILRow where
  memberId : String
  sponsorName : String
  party : String
  chamber : String
  district : Nat
  sponsored_total : Nat
  primary_sponsor_total : Nat
  chief_co_sponsor_total : Nat
  co_sponsor_total : Nat
  enacted_total : Nat
  public_act_numbers : List String
deriving DecidableEq, Repr

structure ILLaw where
  public_act_number : String
  bill_id : String
  sponsor_member_id : String
deriving DecidableEq, Repr

/-- Aggregation state: the `by_member` dict (insertion-ordered association
list), detected laws, the loop's `unmatched_count` increments, and the
number of entries the matcher appended to its `unmatched` list (added to
`unmatched_count` at the end of `build_il_stats`). -/
structure ILAgg where
  byMember : List (String × ILRow)
  laws : List ILLaw
  unmatchedLoop : Nat
  matcherLogged : Nat
deriving DecidableEq, Repr

def assocFind (l : List (String × α)) (k : String) : Option α :=
  (l.find? (fun p => p.1 = k)).map Prod.snd

/-- Replace the value of the first entry with key `k` (dict item
assignment keeps the original insertion position). -/
def assocSet : List (String × α) → String → α → List (String × α)
  | [], _, _ => []
  | (k0, v0) :: rest, k, v =>
    if k0 = k then (k0, v) :: rest else (k0, v0) :: assocSet rest k v

/-- Fresh `by_member` row for a member. -/
def initRow (m : ILMember) : ILRow :=
  ⟨m.member_id, m.name, m.party, m.chamber, m.district, 0, 0, 0, 0, 0, []⟩

/-- `if member_id not in by_member: by_member[member_id] = fresh` followed by
an in-place update `f`. -/
def upsertRow (byM : List (String × ILRow)) (m : ILMember) (f : ILRow → ILRow) :
    List (String × ILRow) :=
  match assocFind byM m.member_id with
  | some r => assocSet byM m.member_id (f r)
  | none => byM ++ [(m.member_id, f (initRow m))]

/-- `"house" if bill_type in ("hb", "hr", "hjr", "hjrca") else "senate"`. -/
def chamberOfBillType (bt : String) : String :=
  if bt = "hb" || bt = "hr" || bt = "hjr" || bt = "hjrca" then "house" else "senate"

/-- `bill.get("primary_sponsor_name") or bill.get("sponsor_name_raw")`. -/
def effectivePrimary (b : ILBill) : String :=
  if b.primary_sponsor_name ≠ "" then b.primary_sponsor_name else b.sponsor_name_raw

/-- The co-sponsor name loop shared by the chief and plain tiers: match each
name (with `_infer_chamber_from_name(name) or chamber` as hint) and bump the
member's row with `f`; unmatched names increment `unmatched_count`.
Returns the updated `by_member` plus the `unmatched_count` and matcher-log
increments. -/
def ilNameStep (members : List ILMember) (fallbackCh : String) (f : ILRow → ILRow)
    (st : List (String × ILRow) × Nat × Nat) (n : String) :
    List (String × ILRow) × Nat × Nat :=
  let hint := (inferChamberFromName n).getD fallbackCh
  let mo := ilMatch members n hint
  match mo.result with
  | none => (st.1, st.2.1 + 1, st.2.2 + (if mo.logged.isSome then 1 else 0))
  | some mem =>
    (upsertRow st.1 mem f, st.2.1, st.2.2 + (if mo.logged.isSome then 1 else 0))

def ilProcessNames (members : List ILMember) (byM : List (String × ILRow))
    (names : List String) (fallbackCh : String) (f : ILRow → ILRow) :
    List (String × ILRow) × Nat × Nat :=
  names.foldl (ilNameStep members fallbackCh f) (byM, 0, 0)

/-- One iteration of the `for bill in all_bills` loop of `build_il_stats`
(step 5). -/
def ilStep (members : List ILMember) (st : ILAgg) (b : ILBill) : ILAgg :=
  let pn := effectivePrimary b
  if pn = "" then { st with unmatchedLoop := st.unmatchedLoop + 1 }
  else
    let chamber := chamberOfBillType (pyLowerS b.bill_type)
    let mo := ilMatch members pn chamber
    match mo.result with
    | none =>
      { st with unmatchedLoop := st.unmatchedLoop + 1,
                matcherLogged := st.matcherLogged + (if mo.logged.isSome then 1 else 0) }
    | some mem =>
      let byM1 := upsertRow st.byMember mem (fun r =>
        { r with sponsored_total := r.sponsored_total + 1,
                 primary_sponsor_total := r.primary_sponsor_total + 1 })
      let chiefNames := b.chief_co_sponsors.filter (fun s => s ≠ "")
      let resChief := ilProcessNames members byM1 chiefNames chamber (fun r =>
        { r with chief_co_sponsor_total := r.chief_co_sponsor_total + 1 })
      let coNames := b.co_sponsors.filter (fun s => s ≠ "")
      let resCo := ilProcessNames members resChief.1 coNames chamber (fun r =>
        { r with co_sponsor_total := r.co_sponsor_total + 1 })
      let withPA :=
        if b.public_act_number ≠ "" then
          (upsertRow resCo.1 mem (fun r =>
            { r with enacted_total := r.enacted_total + 1,
                     public_act_numbers := r.public_act_numbers ++ [b.public_act_number] }),
           st.laws ++ [⟨b.public_act_number, b.bill_id, mem.member_id⟩])
        else (resCo.1, st.laws)
      ⟨withPA.1, withPA.2,
       st.unmatchedLoop + resChief.2.1 + resCo.2.1,
       st.matcherLogged + resChief.2.2 + resCo.2.2⟩

/-- The step-5 aggregation loop of `build_il_stats` over a bill list. -/
def ilAggregate (members : List ILMember) (bills : List ILBill) : ILAgg :=
  bills.foldl (ilStep members) ⟨[], [], 0, 0⟩

/-- Final `unmatched_sponsors` count: loop increments plus
`len(matcher.unmatched)`. -/
def ilUnmatchedSponsors (st : ILAgg) : Nat :=
  st.unmatchedLoop + st.matcherLogged

/-! ## Incremental merge (`build_il_stats`, step 4b) -/

/-- One `merged_by_id[bill_id] = bill` insertion, skipping falsy ids; a dict
assignment to an existing key replaces the value in place. -/
def insertBillById (acc : List (String × ILBill)) (b : ILBill) : List (String × ILBill) :=
  if b.bill_id = "" then acc
  else
    match assocFind acc b.bill_id with
    | some _ => assocSet acc b.bill_id b
    | none => acc ++ [(b.bill_id, b)]

/-- The step-4b merge: existing bills first, then newly fetched bills, then
updated pending bills, each overriding by `bill_id`; the result is
`list(merged_by_id.values())`. -/
def mergeBillsById (existing newBills updatedPending : List ILBill) : List ILBill :=
  ((updatedPending.foldl insertBillById
    (newBills.foldl insertBillById
      (existing.foldl insertBillById []))).map Prod.snd)

/-! ## National aggregation (`main.py`) -/

/-- A normalized co-sponsor entry as consumed by
`_apply_cosponsors_to_totals` (`""` models an absent string field). -/
structure Cosponsor where
  bioguideId : String
  fullName : String
  party : String
  state : String
  chamber : String
  is_original : Bool
  withdrawn : Bool
deriving DecidableEq, Repr

/-- A `by_sponsor` row of `build_stats`. -/
structure NatRow where
  bioguideId : String
  sponsorName : String
  party : String
  state : String
  chamber : String
  sponsored_total : Nat
  primary_sponsor_total : Nat
  cosponsor_total : Nat
  original_cosponsor_total : Nat
  enacted_total : Nat
  public_law_count : Nat
  private_law_count : Nat
deriving DecidableEq, Repr

/-- Fresh row created by `_apply_cosponsors_to_totals` for an unseen
co-sponsor. -/
def initNatRowFromCosponsor (c : Cosponsor) (billChamber : String) : NatRow :=
  ⟨c.bioguideId, c.fullName, c.party, c.state,
   (if c.chamber ≠ "" then c.chamber else billChamber), 0, 0, 0, 0, 0, 0, 0⟩

/-- The bump applied to a row for a counted co-sponsor. -/
def bumpCosponsor (c : Cosponsor) (r : NatRow) : NatRow :=
  { r with cosponsor_total := r.cosponsor_total + 1,
           original_cosponsor_total :=
             r.original_cosponsor_total + (if c.is_original then 1 else 0) }

/-- Loop body of `_apply_cosponsors_to_totals` with the `seen` set made
explicit. `primary` is the primary sponsor's bioguide id, `""` when absent
(Python `None`; the comparison `bioguide == primary_bioguide` is then never
true because falsy bioguides are skipped first). -/
def applyCosponsorsAux (billChamber primary : String) :
    List Cosponsor → List String → List (String × NatRow) → List (String × NatRow)
  | [], _, byS => byS
  | c :: rest, seen, byS =>
    if c.withdrawn then applyCosponsorsAux billChamber primary rest seen byS
    else
      let g := c.bioguideId
      if g = "" || g = primary then applyCosponsorsAux billChamber primary rest seen byS
      else if seen.contains g then applyCosponsorsAux billChamber primary rest seen byS
      else
        let byS1 :=
          match assocFind byS g with
          | some r => assocSet byS g (bumpCosponsor c r)
          | none => byS ++ [(g, bumpCosponsor c (initNatRowFromCosponsor c billChamber))]
        applyCosponsorsAux billChamber primary rest (g :: seen) byS1

/-- `_apply_cosponsors_to_totals(cosponsors, by_sponsor, bill_chamber,
primary_bioguide)`. -/
def applyCosponsorsToTotals (cosponsors : List Cosponsor)
    (bySponsor : List (String × NatRow)) (billChamber primary : String) :
    List (String × NatRow) :=
  applyCosponsorsAux billChamber primary cosponsors [] bySponsor

/-- A raw national bill, restricted to the fields the tally loop reads. -/
structure CBill where
  btype : String
  number : Nat
  originChamber : String
deriving DecidableEq, Repr

/-- Primary-sponsor info resolved for a bill (`extract_primary_sponsor` /
item fetch). -/
structure SponsorInfo where
  bioguideId : String
  fullName : String
  party : String
  state : String
  chamber : String
deriving DecidableEq, Repr

/-- `normalize_bill_key(congress, bill_type, bill_number)`. -/
def normalizeBillKey (congress : Nat) (bt : String) (n : Nat) : String :=
  s!"{congress}-{pyLowerS bt}-{n}"

/-- State of the step-4 tally of `build_stats`. -/
structure NatAgg where
  bySponsor : List (String × NatRow)
  missingSponsor : Nat
  lawsMatched : Nat
  processedKeys : List String
deriving DecidableEq, Repr

def initNatRowFromSponsor (si : SponsorInfo) : NatRow :=
  ⟨si.bioguideId, si.fullName, si.party, si.state, si.chamber, 0, 0, 0, 0, 0, 0, 0⟩

/-- One iteration of the `for b, sponsor_info in pairs` loop of
`build_stats` (lines 821–874). The law lookup maps a bill key to its law
type string. -/
def tallyPairsStep (congress : Nat) (lawLookup : List (String × String))
    (cosByBill : List (String × List Cosponsor)) (st : NatAgg)
    (pair : CBill × Option SponsorInfo) : NatAgg :=
  match pair.2 with
  | none => { st with missingSponsor := st.missingSponsor + 1 }
  | some si =>
    let b := pair.1
    let billKey : Option String :=
      if b.btype ≠ "" && b.number ≠ 0 then some (normalizeBillKey congress b.btype b.number)
      else none
    let lawInfo : Option String := billKey.bind (fun k => assocFind lawLookup k)
    let rec0 := (assocFind st.bySponsor si.bioguideId).getD (initNatRowFromSponsor si)
    let rec1 := { rec0 with sponsored_total := rec0.sponsored_total + 1,
                            primary_sponsor_total := rec0.primary_sponsor_total + 1 }
    let rec2 :=
      match lawInfo with
      | some lawType =>
        { rec1 with enacted_total := rec1.enacted_total + 1,
                    public_law_count := rec1.public_law_count + (if lawType = "public" then 1 else 0),
                    private_law_count := rec1.private_law_count + (if lawType = "public" then 0 else 1) }
      | none => rec1
    let byS1 :=
      match assocFind st.bySponsor si.bioguideId with
      | some _ => assocSet st.bySponsor si.bioguideId rec2
      | none => st.bySponsor ++ [(si.bioguideId, rec2)]
    let lawsMatched1 := st.lawsMatched + (if lawInfo.isSome then 1 else 0)
    match billKey with
    | none => { st with bySponsor := byS1, lawsMatched := lawsMatched1 }
    | some k =>
      let cosponsors := (assocFind cosByBill k).getD []
      let byS2 :=
        if cosponsors ≠ [] then
          applyCosponsorsToTotals cosponsors byS1
            (if b.originChamber ≠ "" then b.originChamber else si.chamber) si.bioguideId
        else byS1
      { st with bySponsor := byS2, lawsMatched := lawsMatched1,
                processedKeys := st.processedKeys ++ [k] }

/-- The fallback loop of `build_stats` (lines 876–886): co-sponsors of
bills without a processed primary sponsor are still applied. -/
def tallyFallbackStep (billByKey : List (String × CBill)) (st : NatAgg)
    (kv : String × List Cosponsor) : NatAgg :=
  if st.processedKeys.contains kv.1 then st
  else
    let billChamber := ((assocFind billByKey kv.1).map CBill.originChamber).getD ""
    { st with bySponsor := applyCosponsorsToTotals kv.2 st.bySponsor billChamber "" }

/-- The step-4 tally of `build_stats`: the pairs loop followed by the
fallback co-sponsor loop. -/
def buildStatsTally (congress : Nat) (pairs : List (CBill × Option SponsorInfo))
    (cosByBill : List (String × List Cosponsor)) (billByKey : List (String × CBill))
    (lawLookup : List (String × String)) : NatAgg :=
  (cosByBill.foldl (tallyFallbackStep billByKey)
    (pairs.foldl (tallyPairsStep congress lawLookup cosByBill)
      ⟨[], 0, 0, []⟩))

/-! ## Bill filename parsing and bill id (`parse_bill_xml`) -/

/-- Bill-type tokens of the filename pattern
`(\d{3})00(HB|SB|HR|SR|HJR|SJR|HJRCA|SJRCA)(\d+)\.xml` in alternation
order; since each alternative must be followed by a digit, backtracking
makes the longer `HJRCA`/`SJRCA` forms win exactly when a digit follows
them. -/
def billTypeTokens : List String :=
  ["hb", "sb", "hr", "sr", "hjr", "sjr", "hjrca", "sjrca"]

/-- Try one bill-type alternative at `l`: the token (case-insensitively),
then `(\d+)\.xml` (`re.match` anchors only the start, so trailing characters
after `.xml` are allowed). Returns the bill number. -/
def matchTypeNumberXml (tok : String) (l : List Char) : Option Nat :=
  match matchTokCI tok l with
  | none => none
  | some r =>
    let digits := r.takeWhile isDigitChar
    if digits.length = 0 then none
    else if ciStartsWith ".xml".data (r.drop digits.length) then
      some (digitsToNat digits)
    else none

/-- The filename match of `parse_bill_xml`: three digits, `00`, a bill-type
token, digits, `.xml`. Returns
`(session_from_file, bill_type.lower(), bill_number)`. -/
def parseBillFilename (filename : String) : Option (Nat × String × Nat) :=
  let l := filename.data
  let d3 := l.take 3
  if d3.length = 3 && d3.all isDigitChar && ciStartsWith "00".data (l.drop 3) then
    let rest := l.drop 5
    match billTypeTokens.findSome? (fun tok =>
        (matchTypeNumberXml tok rest).map (fun n => (tok, n))) with
    | some (tok, n) => some (digitsToNat d3, tok, n)
    | none => none
  else none

/-- The fields of the dict returned by `parse_bill_xml` that are determined
by the filename and the `ga_session` argument. The XML body only
contributes sponsor/title/action fields, which are independent of the bill
identity; XML parse failure (returning `None`) is modelled by the `xmlOk`
flag. -/
structure ILBillKeyInfo where
  bill_id : String
  ga_session : Nat
  bill_type : String
  bill_number : Nat
deriving DecidableEq, Repr

/-- The identity-forming part of `parse_bill_xml(xml_content, filename,
ga_session)`: `bill_id = f"{ga_session}-{bill_type}-{bill_number}"` is built
from the *argument* `ga_session`, not from the session digits of the
filename. -/
def parseBillXmlKey (xmlOk : Bool) (filename : String) (gaSession : Nat) :
    Option ILBillKeyInfo :=
  match parseBillFilename filename with
  | none => none
  | some (_, ty, num) =>
    if xmlOk then
      some ⟨s!"{gaSession}-{ty}-{num}", gaSession, ty, num⟩
    else none

/-! ## Bipartisan score calculator

`_calculate_advanced_metrics` and `BIPARTISAN_PRIOR_WEIGHT` are imported
from `illinois_stats` by `tests/test_illinois_bipartisan.py` but are not
present in the provided source tree; the definitions below are modelled
from the specification (§4.6) and the expectations of that test. -/

/-- Modelled from the spec: a legislator with aggregated co-sponsorship
counters (`cross_party_total` and `total_relationships`). -/
structure BPMember where
  id : String
  party : String
  chamber : String
  cross : Nat
  total : Nat
deriving DecidableEq, Repr

/-- Modelled from the spec: `BIPARTISAN_PRIOR_WEIGHT` is a fixed positive
constant; its exact value does not appear in the provided sources, so the
theorems below quantify over the weight and this constant only instantiates
them. -/
def BIPARTISAN_PRIOR_WEIGHT : ℚ := 10

/-- Modelled from the spec: group totals for the `(chamber, party)` peer
group, accumulated over the legislator list. -/
def groupTotals (ms : List BPMember) (ch pa : String) : Nat × Nat :=
  ms.foldl
    (fun (acc : Nat × Nat) m =>
      if m.chamber = ch && m.party = pa then (acc.1 + m.cross, acc.2 + m.total) else acc)
    (0, 0)

/-- Modelled from the spec: the peer group's baseline rate
`sum(cross) / sum(total)`, `0` if the group has no relationships. -/
def groupBaseline (ms : List BPMember) (ch pa : String) : ℚ :=
  let t := groupTotals ms ch pa
  if t.2 = 0 then 0 else (t.1 : ℚ) / (t.2 : ℚ)

/-- Python's `round(q, 1)` on an exact rational: round to the nearest tenth
with ties to even (Python's banker's rounding). -/
def pyRound1 (q : ℚ) : ℚ :=
  let x := q * 10
  let n := ⌊x⌋
  let frac := x - (n : ℚ)
  let r : ℤ :=
    if frac < 1/2 then n
    else if frac > 1/2 then n + 1
    else if n % 2 = 0 then n else n + 1
  (r : ℚ) / 10

/-- Modelled from the spec: the smoothed bipartisan score of one
legislator, `None` when they have no relationships. -/
def smoothedScore (w : ℚ) (ms : List BPMember) (m : BPMember) : Option ℚ :=
  if m.total = 0 then none
  else some (pyRound1 (100 * ((m.cross : ℚ) + w * groupBaseline ms m.chamber m.party) /
    ((m.total : ℚ) + w)))

/-- Modelled from the spec: the raw score `100 * cross / total` rounded to
one decimal, `None` when there are no relationships. -/
def rawScore (m : BPMember) : Option ℚ :=
  if m.total = 0 then none
  else some (pyRound1 (100 * (m.cross : ℚ) / (m.total : ℚ)))

/-- Modelled from the spec: the per-legislator output of
`_calculate_advanced_metrics` (id, raw score, smoothed score). -/
def calculateAdvancedMetrics (w : ℚ) (ms : List BPMember) :
    List (String × Option ℚ × Option ℚ) :=
  ms.map (fun m => (m.id, rawScore m, smoothedScore w ms m))

/-! ## Statement-support definitions -/

/-- Boolean membership in a key list. -/
def memKeyB (k : String) : List String → Bool
  | [] => false
  | a :: rest => (a = k) || memKeyB k rest

/-- No duplicates, as a boolean on key lists. -/
def nodupB : List String → Bool
  | [] => true
  | k :: rest => !(memKeyB k rest) && nodupB rest

/-- Boolean disjointness of two key lists. -/
def disjB (a b : List String) : Bool :=
  a.all (fun k => !(memKeyB k b))

/-- The invariant of the two sponsor tiers: normalized keys are duplicate
free within each tier and the tiers share no normalized key. -/
def tiersOK (p : List String × List String) : Bool :=
  nodupB (p.1.map normalize_name) && nodupB (p.2.map normalize_name) &&
    disjB (p.1.map normalize_name) (p.2.map normalize_name)

/-- The five counters of an Illinois row, as a vector. -/
def countsVec (r : ILRow) : Nat × Nat × Nat × Nat × Nat :=
  (r.sponsored_total, r.primary_sponsor_total, r.chief_co_sponsor_total,
   r.co_sponsor_total, r.enacted_total)

/-- Counters of the `by_member` row of `mid` (all zero when absent). -/
def ilRowCounts (mid : String) (byM : List (String × ILRow)) :
    Nat × Nat × Nat × Nat × Nat :=
  ((assocFind byM mid).map countsVec).getD (0, 0, 0, 0, 0)

/-- How many of `names` the matcher resolves to member `mid`, under the
per-name chamber hint used by the aggregation loop. -/
def countMatchedTo (members : List ILMember) (names : List String)
    (fallbackCh mid : String) : Nat :=
  names.countP (fun n =>
    decide ((ilMatch members n ((inferChamberFromName n).getD fallbackCh)).result.map
      ILMember.member_id = some mid))

/-- The counter contribution of one bill to member `mid`, read directly off
the bill (the aggregation loop adds exactly this, independently of the
accumulated state). -/
def ilContrib (members : List ILMember) (b : ILBill) (mid : String) :
    Nat × Nat × Nat × Nat × Nat :=
  let pn := effectivePrimary b
  if pn = "" then (0, 0, 0, 0, 0)
  else
    let chamber := chamberOfBillType (pyLowerS b.bill_type)
    match (ilMatch members pn chamber).result with
    | none => (0, 0, 0, 0, 0)
    | some mem =>
      let base : Nat := if mem.member_id = mid then 1 else 0
      let pa : Nat := if mem.member_id = mid && b.public_act_number ≠ "" then 1 else 0
      (base, base,
       countMatchedTo members (b.chief_co_sponsors.filter (fun s => s ≠ "")) chamber mid,
       countMatchedTo members (b.co_sponsors.filter (fun s => s ≠ "")) chamber mid,
       pa)

/-- `cosponsor_total` of the `by_sponsor` row of `g` (zero when absent). -/
def natCosponsorTotal (g : String) (byS : List (String × NatRow)) : Nat :=
  ((assocFind byS g).map NatRow.cosponsor_total).getD 0

/-! ## Concrete inputs used by theorems and witnesses -/

/-- The action log of `SAMPLE_SPONSOR_CHANGED_XML` in
`tests/test_illinois.py` (bill 10400HB0871): prefiled by Rep. Emanuel Chris
Welch, chief sponsor later changed to Rep. Amy Briel. -/
def sponsorChangedActions : List ILAction :=
  [⟨"12/17/2024", "Prefiled with Clerk by Rep. Emanuel Chris Welch", "House"⟩,
   ⟨"1/8/2025", "First Reading", "House"⟩,
   ⟨"3/18/2025", "Chief Sponsor Changed to Rep. Amy Briel", "House"⟩,
   ⟨"8/15/2025", "Public Act . . . . . . . . . 104-0165", "House"⟩]

def exAlice : ILMember := ⟨"104-house-1", "Alice Blue", "Alice", "Blue", "D", "house", 1⟩

def exBob : ILMember := ⟨"104-house-2", "Bob Red", "Bob", "Red", "R", "house", 2⟩

def exJohn : ILMember := ⟨"h-1", "John Smith", "John", "Smith", "D", "house", 1⟩

def exJane : ILMember := ⟨"s-1", "Jane Smith", "Jane", "Smith", "R", "senate", 1⟩

/-- A bill whose resolved primary sponsor (Bob Red) also appears in its
plain co-sponsor list. -/
def exSelfCoBill : ILBill :=
  ⟨"104-hb-1", "hb", "Bob Red", "Bob Red", [], ["Rep. Bob Red"], ""⟩

def exBill1 : ILBill :=
  ⟨"104-hb-1", "hb", "Alice Blue", "Alice Blue", [], ["Rep. Bob Red"], ""⟩

def exBill2 : ILBill :=
  ⟨"104-hb-2", "hb", "Bob Red", "Bob Red", ["Rep. Alice Blue"], [], "104-0001"⟩

/-- A bill whose primary sponsor cannot be resolved against
`[exAlice, exBob]`. -/
def exUnresolvedBill : ILBill :=
  ⟨"104-hb-3", "hb", "Rep. Nobody Known", "Rep. Nobody Known", [], [], ""⟩

/-- National bill and co-sponsor for the sponsorless-bill scenario. -/
def exCBill : CBill := ⟨"hr", 10, "House"⟩

def exCosponsor : Cosponsor := ⟨"C000001", "Some One", "D", "IL", "House", true, false⟩

/-- Aggregated bipartisan counters mirroring the repository test
`test_bipartisan_score_is_smoothed_by_group_baseline` and §8.10 of the
spec: Bob has 2 cross-party links out of 3; the House-Republican group has
2 cross-party links out of 11. -/
def bpAlice : BPMember := ⟨"104-house-1", "D", "house", 2, 2⟩

def bpBob : BPMember := ⟨"104-house-2", "R", "house", 2, 3⟩

def bpCarol : BPMember := ⟨"104-house-3", "R", "house", 0, 8⟩

def bpDana : BPMember := ⟨"104-house-4", "D", "house", 0, 0⟩

def bpTest : List BPMember := [bpAlice, bpBob, bpCarol, bpDana]

/-! # Theorems -/

/-- C9: `PUBLIC_ACT_PATTERN` extraction from free action text: a dotted
Public Act line yields the law number, and an unrelated action yields no
marker. -/
theorem c9_enactment_marker_parsing :
    searchPublicAct "Public Act . . . . . . . . . 103-0324" = some "103-0324" ∧
    searchPublicAct "Session Sine Die" = none := by
  exact ⟨by decide, by decide⟩

/-- C3 (code evaluation): on the repository's own
`SAMPLE_SPONSOR_CHANGED_XML` action log, `_extract_primary_sponsor_from_actions`
returns the original filer "Emanuel Chris Welch"; it has no handling of
"Chief Sponsor Changed to" entries, so the reassigned sponsor "Amy Briel"
required by the spec and by `test_sponsor_change_overrides_original_filer`
is not returned. -/
theorem c3_sponsor_change_not_overriding :
    extractPrimarySponsorFromActions sponsorChangedActions = some "Emanuel Chris Welch" ∧
    extractPrimarySponsorFromActions sponsorChangedActions ≠ some "Amy Briel" := by
  exact ⟨by decide, by decide⟩

/-- C8 (counterexample): `normalize_name` is not idempotent: the title
pattern is anchored and strips a single leading title per application, so
`"Rep. Rep. Smith"` normalizes to `"rep. smith"`, which a second
application shortens to `"smith"`. -/
theorem c8_idempotence_counterexample :
    normalize_name (normalize_name "Rep. Rep. Smith") ≠
      normalize_name "Rep. Rep. Smith" := by
  decide

/-- C10: `parse_bill_xml` keys its result by the `ga_session` argument: for
any filename the pattern accepts, the returned `bill_id` is
`"{ga_session}-{type}-{number}"` regardless of the session digits encoded
in the filename. -/
theorem c10_bill_id_uses_session_argument (xmlOk : Bool) (filename : String)
    (gaSession sessFile : Nat) (ty : String) (num : Nat)
    (hf : parseBillFilename filename = some (sessFile, ty, num))
    (hx : xmlOk = true) :
    parseBillXmlKey xmlOk filename gaSession =
      some ⟨s!"{gaSession}-{ty}-{num}", gaSession, ty, num⟩ := by
  simp [parseBillXmlKey, hf, hx]

/-- Witness for C10: the filename encodes session 103 but the result is
keyed under the passed session 104. -/
theorem c10_bill_id_uses_session_argument_witness :
    parseBillFilename "10300HB0007.xml" = some (103, "hb", 7) ∧
    parseBillXmlKey true "10300HB0007.xml" 104 =
      some ⟨"104-hb-7", 104, "hb", 7⟩ := by
  refine ⟨by decide, ?_⟩
  exact c10_bill_id_uses_session_argument true "10300HB0007.xml" 104 103 "hb" 7
    (by decide) rfl

/-- The fold of `groupTotals` computes the component-wise sums over the
`(chamber, party)` peer group. -/
theorem groupTotals_eq (ms : List BPMember) (ch pa : String) :
    groupTotals ms ch pa =
      (((ms.filter (fun x => x.chamber = ch && x.party = pa)).map BPMember.cross).sum,
       ((ms.filter (fun x => x.chamber = ch && x.party = pa)).map BPMember.total).sum) := by
  have aux : ∀ (l : List BPMember) (acc : Nat × Nat),
      l.foldl
        (fun (acc : Nat × Nat) m =>
          if m.chamber = ch && m.party = pa then (acc.1 + m.cross, acc.2 + m.total) else acc)
        acc =
      (acc.1 + ((l.filter (fun x => x.chamber = ch && x.party = pa)).map BPMember.cross).sum,
       acc.2 + ((l.filter (fun x => x.chamber = ch && x.party = pa)).map BPMember.total).sum) := by
    intro l
    induction l with
    | nil => intro acc; simp
    | cons m rest ih =>
      intro acc
      rw [List.foldl_cons]
      by_cases h : (m.chamber = ch && m.party = pa) = true
      · rw [if_pos h, ih]
        simp only [List.filter_cons, h, if_true, List.map_cons, List.sum_cons,
          Prod.mk.injEq]
        omega
      · rw [if_neg h, ih]
        simp only [List.filter_cons, h, Bool.false_eq_true, if_false]
  simpa [groupTotals] using aux ms (0, 0)

/-- C1: the bipartisan score calculator (modelled from the spec, the
implementation being absent from the provided sources) emits, for every
legislator in the input, the smoothed score
`round(100 * (cross + W * baseline) / (total + W), 1)` with the baseline
equal to the `(chamber, party)` peer group's `sum(cross) / sum(total)`
(0 for a group without relationships), and the smoothed score is `None`
exactly when the legislator's `total_relationships` is 0. -/
theorem c1_bipartisan_smoothed_score (w : ℚ) (ms : List BPMember) (m : BPMember)
    (hm : m ∈ ms) :
    (m.id, rawScore m, smoothedScore w ms m) ∈ calculateAdvancedMetrics w ms ∧
    smoothedScore w ms m =
      (if m.total = 0 then none
       else some (pyRound1 (100 * ((m.cross : ℚ) + w *
         (if ((ms.filter (fun x => x.chamber = m.chamber && x.party = m.party)).map
              BPMember.total).sum = 0 then 0
          else ((((ms.filter (fun x => x.chamber = m.chamber && x.party = m.party)).map
                  BPMember.cross).sum : ℚ) /
                (((ms.filter (fun x => x.chamber = m.chamber && x.party = m.party)).map
                  BPMember.total).sum : ℚ)))) /
         ((m.total : ℚ) + w)))) ∧
    (smoothedScore w ms m = none ↔ m.total = 0) := by
  refine ⟨List.mem_map_of_mem _ hm, ?_, ?_⟩
  · simp only [smoothedScore, groupBaseline, groupTotals_eq]
  · simp only [smoothedScore]
    by_cases h : m.total = 0
    · simp [h]
    · simp [h]

/-- Witness for C1, at the counters of the repository's own bipartisan
test: Bob (R, house) with 2 cross-party links out of 3, against a
House-Republican baseline of 2/11. -/
theorem c1_bipartisan_smoothed_score_witness :
    bpBob ∈ bpTest ∧
    ((bpBob.id, rawScore bpBob, smoothedScore BIPARTISAN_PRIOR_WEIGHT bpTest bpBob) ∈
        calculateAdvancedMetrics BIPARTISAN_PRIOR_WEIGHT bpTest ∧
      smoothedScore BIPARTISAN_PRIOR_WEIGHT bpTest bpBob =
        (if bpBob.total = 0 then none
         else some (pyRound1 (100 * ((bpBob.cross : ℚ) + BIPARTISAN_PRIOR_WEIGHT *
           (if ((bpTest.filter (fun x => x.chamber = bpBob.chamber && x.party = bpBob.party)).map
                BPMember.total).sum = 0 then 0
            else ((((bpTest.filter (fun x => x.chamber = bpBob.chamber && x.party = bpBob.party)).map
                    BPMember.cross).sum : ℚ) /
                  (((bpTest.filter (fun x => x.chamber = bpBob.chamber && x.party = bpBob.party)).map
                    BPMember.total).sum : ℚ)))) /
           ((bpBob.total : ℚ) + BIPARTISAN_PRIOR_WEIGHT)))) ∧
      (smoothedScore BIPARTISAN_PRIOR_WEIGHT bpTest bpBob = none ↔ bpBob.total = 0)) :=
  ⟨by decide, c1_bipartisan_smoothed_score BIPARTISAN_PRIOR_WEIGHT bpTest bpBob (by decide)⟩

/-! ### Character-level lemmas for normalization idempotence -/

theorem char_eq_iff_toNat (c d : Char) : c = d ↔ c.toNat = d.toNat := by
  constructor
  · rintro rfl; rfl
  · intro h
    apply Char.ext
    apply UInt32.ext
    exact h

theorem toNat_ofNat_valid (n : Nat) (h : n.isValidChar) : (Char.ofNat n).toNat = n := by
  rw [Char.ofNat, dif_pos h]
  simp [Char.ofNatAux, Char.toNat, UInt32.toNat]

theorem toLower_toNat (c : Char) :
    c.toLower.toNat = if 65 ≤ c.toNat ∧ c.toNat ≤ 90 then c.toNat + 32 else c.toNat := by
  unfold Char.toLower
  by_cases h : 65 ≤ c.toNat ∧ c.toNat ≤ 90
  · rw [if_pos ⟨h.1, h.2⟩, if_pos h]
    exact toNat_ofNat_valid _ (Or.inl (by omega))
  · rw [if_neg (fun hc => h ⟨hc.1, hc.2⟩), if_neg h]

theorem toLower_idem (c : Char) : c.toLower.toLower = c.toLower := by
  rw [char_eq_iff_toNat, toLower_toNat c.toLower, toLower_toNat c]
  by_cases h : 65 ≤ c.toNat ∧ c.toNat ≤ 90
  · rw [if_pos h, if_neg (by omega)]
  · rw [if_neg h, if_neg h]

theorem isPySpace_iff (c : Char) :
    isPySpace c = true ↔
      (c.toNat = 32 ∨ c.toNat = 9 ∨ c.toNat = 10 ∨ c.toNat = 13 ∨
       c.toNat = 11 ∨ c.toNat = 12) := by
  simp only [isPySpace, Bool.or_eq_true, decide_eq_true_eq, char_eq_iff_toNat,
    show (' '.toNat = 32) from rfl, show ('\t'.toNat = 9) from rfl,
    show ('\n'.toNat = 10) from rfl, show ('\r'.toNat = 13) from rfl,
    show ('\x0b'.toNat = 11) from rfl, show ('\x0c'.toNat = 12) from rfl]
  tauto

theorem isPySpace_toLower (c : Char) : isPySpace c.toLower = isPySpace c := by
  have ht := toLower_toNat c
  rw [Bool.eq_iff_iff, isPySpace_iff, isPySpace_iff, ht]
  by_cases h : 65 ≤ c.toNat ∧ c.toNat ≤ 90
  · rw [if_pos h]
    omega
  · rw [if_neg h]

/-! ### Split/join lemmas: the last normalization step is idempotent -/

/-- Every word produced by `splitAux` is nonempty and whitespace-free. -/
theorem splitAux_words_good (l : List Char) : ∀ (acc : List Char),
    (∀ c ∈ acc, isPySpace c = false) →
    ∀ w ∈ splitAux l acc, w ≠ [] ∧ ∀ c ∈ w, isPySpace c = false := by
  induction l with
  | nil =>
    intro acc hacc w hw
    unfold splitAux at hw
    by_cases h : acc = []
    · simp [h] at hw
    · simp only [h, if_false, List.mem_singleton] at hw
      subst hw
      refine ⟨by simpa using h, ?_⟩
      intro c hc
      exact hacc c (List.mem_reverse.mp hc)
  | cons c rest ih =>
    intro acc hacc w hw
    unfold splitAux at hw
    by_cases hs : isPySpace c = true
    · rw [if_pos hs] at hw
      by_cases h : acc = []
      · rw [if_pos h] at hw
        exact ih [] (by simp) w hw
      · rw [if_neg h] at hw
        rcases List.mem_cons.mp hw with h1 | h2
        · subst h1
          refine ⟨by simpa using h, ?_⟩
          intro d hd
          exact hacc d (List.mem_reverse.mp hd)
        · exact ih [] (by simp) w h2
    · rw [if_neg hs] at hw
      refine ih (c :: acc) ?_ w hw
      intro d hd
      rcases List.mem_cons.mp hd with h1 | h2
      · subst h1; simpa using hs
      · exact hacc d h2

/-- Consuming a whitespace-free word prefixes it (reversed) onto the
accumulator. -/
theorem splitAux_append_word (w : List Char) : ∀ (l acc : List Char),
    (∀ c ∈ w, isPySpace c = false) →
    splitAux (w ++ l) acc = splitAux l (w.reverse ++ acc) := by
  induction w with
  | nil => intro l acc _; simp
  | cons c w2 ih =>
    intro l acc hw
    have hc : isPySpace c = false := hw c (by simp)
    show splitAux (c :: (w2 ++ l)) acc = _
    conv_lhs => unfold splitAux
    rw [if_neg (by simp [hc])]
    rw [ih l (c :: acc) (fun d hd => hw d (by simp [hd]))]
    simp

/-- Splitting the space-joined list of good words recovers the words. -/
theorem pySplitL_joinSpaceL (ws : List (List Char))
    (h : ∀ w ∈ ws, w ≠ [] ∧ ∀ c ∈ w, isPySpace c = false) :
    pySplitL (joinSpaceL ws) = ws := by
  induction ws with
  | nil => rfl
  | cons w ws2 ih =>
    cases ws2 with
    | nil =>
      show pySplitL (joinSpaceL [w]) = [w]
      have hw := h w (by simp)
      have hjoin : joinSpaceL [w] = w ++ [] := by simp [joinSpaceL]
      rw [hjoin]
      unfold pySplitL
      rw [splitAux_append_word w [] [] hw.2]
      unfold splitAux
      rw [if_neg (by simpa using hw.1)]
      simp
    | cons w2 ws3 =>
      have hjoin : joinSpaceL (w :: w2 :: ws3) = w ++ ' ' :: joinSpaceL (w2 :: ws3) := rfl
      rw [hjoin]
      unfold pySplitL
      rw [splitAux_append_word w _ [] (h w (by simp)).2]
      unfold splitAux
      rw [if_pos (by decide)]
      rw [if_neg (by simpa using (h w (by simp)).1)]
      have ihr := ih (fun x hx => h x (by simp [hx]))
      unfold pySplitL at ihr
      rw [ihr]
      simp

/-- Lowercasing commutes with the space-join. -/
theorem lowerL_joinSpaceL (ws : List (List Char)) :
    lowerL (joinSpaceL ws) = joinSpaceL (ws.map lowerL) := by
  induction ws with
  | nil => rfl
  | cons w ws2 ih =>
    cases ws2 with
    | nil => rfl
    | cons w2 ws3 =>
      show lowerL (w ++ ' ' :: joinSpaceL (w2 :: ws3)) = _
      simp only [lowerL, List.map_append, List.map_cons] at ih ⊢
      rw [show ' '.toLower = ' ' from rfl]
      rw [ih]
      rfl

/-- Good words stay good under lowercasing. -/
theorem words_good_map_lower (ws : List (List Char))
    (h : ∀ w ∈ ws, w ≠ [] ∧ ∀ c ∈ w, isPySpace c = false) :
    ∀ w ∈ ws.map lowerL, w ≠ [] ∧ ∀ c ∈ w, isPySpace c = false := by
  intro w hw
  rcases List.mem_map.mp hw with ⟨w0, hw0, rfl⟩
  have h0 := h w0 hw0
  constructor
  · simpa [lowerL] using h0.1
  · intro c hc
    rcases List.mem_map.mp hc with ⟨c0, hc0, rfl⟩
    rw [isPySpace_toLower]
    exact h0.2 c0 hc0

/-- The reverse of a space-join of good words starts with a non-space
character. -/
theorem joinSpaceL_reverse_head (ws : List (List Char))
    (h : ∀ w ∈ ws, w ≠ [] ∧ ∀ c ∈ w, isPySpace c = false) (hne : ws ≠ []) :
    ∃ c t, (joinSpaceL ws).reverse = c :: t ∧ isPySpace c = false := by
  induction ws with
  | nil => exact absurd rfl hne
  | cons w ws2 ih =>
    cases ws2 with
    | nil =>
      have hw := h w (by simp)
      rcases List.exists_cons_of_ne_nil (by simpa using hw.1 : w.reverse ≠ []) with ⟨c, t, hct⟩
      refine ⟨c, t, by simpa [joinSpaceL] using hct, ?_⟩
      have : c ∈ w.reverse := by rw [hct]; simp
      exact hw.2 c (List.mem_reverse.mp this)
    | cons w2 ws3 =>
      rcases ih (fun x hx => h x (by simp [hx])) (by simp) with ⟨c, t, hct, hc⟩
      refine ⟨c, t ++ [' '] ++ w.reverse, ?_, hc⟩
      show ((w ++ ' ' :: joinSpaceL (w2 :: ws3)).reverse = _)
      rw [List.reverse_append, List.reverse_cons, hct]
      simp

/-- Stripping does not change a space-join of good words. -/
theorem pyStripL_joinSpaceL (ws : List (List Char))
    (h : ∀ w ∈ ws, w ≠ [] ∧ ∀ c ∈ w, isPySpace c = false) :
    pyStripL (joinSpaceL ws) = joinSpaceL ws := by
  cases ws with
  | nil => rfl
  | cons w ws2 =>
    have hw := h w (by simp)
    rcases List.exists_cons_of_ne_nil hw.1 with ⟨c, w2, hcw⟩
    have hc : isPySpace c = false := by
      rw [hcw] at hw
      exact hw.2 c (by simp)
    have hrep : ∃ t, joinSpaceL (w :: ws2) = c :: t := by
      cases ws2 with
      | nil => exact ⟨w2, by simp [joinSpaceL, hcw]⟩
      | cons w3 ws4 => exact ⟨w2 ++ ' ' :: joinSpaceL (w3 :: ws4), by simp [joinSpaceL, hcw]⟩
    rcases hrep with ⟨t, ht⟩
    rcases joinSpaceL_reverse_head (w :: ws2) h (by simp) with ⟨d, t2, hdt, hd⟩
    rw [ht] at hdt
    unfold pyStripL dropSpace
    rw [ht, List.dropWhile_cons_of_neg (by simp [hc]), hdt,
      List.dropWhile_cons_of_neg (by simp [hd]), ← hdt, List.reverse_reverse]

/-- The canonical form is the space-join of the lowercased words. -/
theorem canonL_eq_join (l : List Char) :
    canonL l = joinSpaceL ((pySplitL l).map lowerL) := by
  unfold canonL
  rw [lowerL_joinSpaceL]
  exact pyStripL_joinSpaceL _
    (words_good_map_lower _ (splitAux_words_good l [] (by simp)))

/-- The final normalization step (`' '.join(split()).lower().strip()`) is
idempotent. -/
theorem canonL_idem (l : List Char) : canonL (canonL l) = canonL l := by
  have good' : ∀ w ∈ (pySplitL l).map lowerL, w ≠ [] ∧ ∀ c ∈ w, isPySpace c = false :=
    words_good_map_lower _ (splitAux_words_good l [] (by simp))
  rw [canonL_eq_join l, canonL_eq_join (joinSpaceL ((pySplitL l).map lowerL)),
    pySplitL_joinSpaceL _ good']
  congr 1
  simp only [List.map_map]
  apply List.map_congr_left
  intro w _
  simp only [Function.comp, lowerL, List.map_map]
  apply List.map_congr_left
  intro c _
  simp [Function.comp, toLower_idem]

/-- Stripping does not change a canonical form. -/
theorem pyStripL_canonL (l : List Char) : pyStripL (canonL l) = canonL l := by
  rw [canonL_eq_join l]
  exact pyStripL_joinSpaceL _
    (words_good_map_lower _ (splitAux_words_good l [] (by simp)))

/-- The unfolding equation of `normalizeNameL` on nonempty input. -/
theorem normalizeNameL_ne_nil (l : List Char) (h : l ≠ []) :
    normalizeNameL l = canonL (suffixSubAux (stripOneTitle (pyStripL l))) := by
  unfold normalizeNameL
  rw [if_neg h]

/-- C8 (amended): `normalize_name` is idempotent on every input whose
normalized form is a fixpoint of the title-prefix and generational-suffix
stripping steps; a second application can only differ by stripping a
further title or suffix that the first pass exposed (see the
counterexample). -/
theorem c8_normalize_idempotent_unless_reexposed (x : String)
    (h1 : titleSubStr (normalize_name x) = normalize_name x)
    (h2 : suffixSubStr (normalize_name x) = normalize_name x) :
    normalize_name (normalize_name x) = normalize_name x := by
  have hd1 : stripOneTitle (normalizeNameL x.data) = normalizeNameL x.data :=
    congrArg String.data h1
  have hd2 : suffixSubAux (normalizeNameL x.data) = normalizeNameL x.data :=
    congrArg String.data h2
  show String.mk (normalizeNameL (normalizeNameL x.data)) = String.mk (normalizeNameL x.data)
  congr 1
  by_cases hL : x.data = []
  · rw [hL]; rfl
  · have hm : normalizeNameL x.data =
        canonL (suffixSubAux (stripOneTitle (pyStripL x.data))) :=
      normalizeNameL_ne_nil x.data hL
    by_cases hnil : normalizeNameL x.data = []
    · rw [hnil]; rfl
    · have hstrip : pyStripL (normalizeNameL x.data) = normalizeNameL x.data := by
        rw [hm]; exact pyStripL_canonL _
      rw [normalizeNameL_ne_nil (normalizeNameL x.data) hnil, hstrip, hd1, hd2, hm,
        canonL_idem]

/-- Witness for the amended C8 at a name whose normalized form re-exposes
no title or suffix. -/
theorem c8_normalize_idempotent_unless_reexposed_witness :
    titleSubStr (normalize_name "Rep. John A. Smith, Jr.") =
      normalize_name "Rep. John A. Smith, Jr." ∧
    suffixSubStr (normalize_name "Rep. John A. Smith, Jr.") =
      normalize_name "Rep. John A. Smith, Jr." ∧
    normalize_name (normalize_name "Rep. John A. Smith, Jr.") =
      normalize_name "Rep. John A. Smith, Jr." :=
  ⟨by decide, by decide,
   c8_normalize_idempotent_unless_reexposed "Rep. John A. Smith, Jr." (by decide) (by decide)⟩

/-! ### Tier invariant (C4) -/

theorem memKeyB_append (k : String) (l1 l2 : List String) :
    memKeyB k (l1 ++ l2) = (memKeyB k l1 || memKeyB k l2) := by
  induction l1 with
  | nil => simp [memKeyB]
  | cons a rest ih => simp [memKeyB, ih, Bool.or_assoc]

theorem anyKey_eq_memKeyB (names : List String) (k : String) :
    (names.any fun e => normalize_name e = k) = memKeyB k (names.map normalize_name) := by
  induction names with
  | nil => simp [memKeyB]
  | cons a rest ih => simp [memKeyB, ih]

theorem nodupB_append_singleton (l : List String) (k : String)
    (h1 : nodupB l = true) (h2 : memKeyB k l = false) :
    nodupB (l ++ [k]) = true := by
  induction l with
  | nil => simp [nodupB, memKeyB]
  | cons a rest ih =>
    rw [List.cons_append,
      show nodupB (a :: (rest ++ [k])) = (!memKeyB a (rest ++ [k]) && nodupB (rest ++ [k]))
        from rfl,
      memKeyB_append]
    rw [show nodupB (a :: rest) = (!memKeyB a rest && nodupB rest) from rfl] at h1
    rw [show memKeyB k (a :: rest) = ((decide (a = k)) || memKeyB k rest) from rfl] at h2
    simp only [Bool.and_eq_true, Bool.not_eq_true'] at h1
    simp only [Bool.or_eq_false_iff] at h2
    rw [h1.1, ih h1.2 h2.2]
    have hak : ¬(k = a) := fun h => (by simpa using h2.1 : ¬(a = k)) h.symm
    simp [memKeyB, hak]

/-- Directional facts about `removeFirstByKey`: membership only shrinks. -/
theorem removeFirstByKey_mem (names : List String) (k j : String)
    (h : memKeyB j ((removeFirstByKey names k).map normalize_name) = true) :
    memKeyB j (names.map normalize_name) = true := by
  induction names with
  | nil => simpa [removeFirstByKey] using h
  | cons a rest ih =>
    by_cases ha : normalize_name a = k
    · simp only [removeFirstByKey, if_pos ha] at h
      simp [memKeyB, h]
    · simp only [removeFirstByKey, if_neg ha, List.map_cons, memKeyB,
        Bool.or_eq_true] at h ⊢
      rcases h with h | h
      · exact Or.inl h
      · exact Or.inr (ih h)

theorem removeFirstByKey_nodup (names : List String) (k : String)
    (h : nodupB (names.map normalize_name) = true) :
    nodupB ((removeFirstByKey names k).map normalize_name) = true := by
  induction names with
  | nil => simpa [removeFirstByKey] using h
  | cons a rest ih =>
    simp only [List.map_cons, nodupB, Bool.and_eq_true, Bool.not_eq_true'] at h
    by_cases ha : normalize_name a = k
    · simp only [removeFirstByKey, if_pos ha]
      exact h.2
    · simp only [removeFirstByKey, if_neg ha, List.map_cons, nodupB,
        Bool.and_eq_true, Bool.not_eq_true']
      refine ⟨?_, ih h.2⟩
      by_cases hmem : memKeyB (normalize_name a) ((removeFirstByKey rest k).map normalize_name) = true
      · rw [removeFirstByKey_mem rest k _ hmem] at h
        exact absurd h.1 (by simp)
      · simpa using hmem

/-- On a duplicate-free tier, removal eliminates the key entirely. -/
theorem removeFirstByKey_not_mem (names : List String) (k : String)
    (h : nodupB (names.map normalize_name) = true) :
    memKeyB k ((removeFirstByKey names k).map normalize_name) = false := by
  induction names with
  | nil => simp [removeFirstByKey, memKeyB]
  | cons a rest ih =>
    simp only [List.map_cons, nodupB, Bool.and_eq_true, Bool.not_eq_true'] at h
    by_cases ha : normalize_name a = k
    · rw [removeFirstByKey, if_pos ha]
      rw [← ha]
      exact h.1
    · rw [removeFirstByKey, if_neg ha]
      simp only [List.map_cons, memKeyB, Bool.or_eq_false_iff]
      exact ⟨by simpa using ha, ih h.2⟩

theorem removeFirstByKey_length (names : List String) (k : String) :
    (removeFirstByKey names k).length ≤ names.length ∧
    names.length ≤ (removeFirstByKey names k).length + 1 := by
  induction names with
  | nil => simp [removeFirstByKey]
  | cons a rest ih =>
    by_cases ha : normalize_name a = k
    · simp [removeFirstByKey, if_pos ha]
    · simp only [removeFirstByKey, if_neg ha, List.length_cons]
      omega

/-- The invariant carried through the action fold. -/
def TiersInv (p : List String × List String) : Prop :=
  nodupB (p.1.map normalize_name) = true ∧
  nodupB (p.2.map normalize_name) = true ∧
  ∀ j, memKeyB j (p.1.map normalize_name) = true →
    memKeyB j (p.2.map normalize_name) = false

theorem disjB_of_forall (a b : List String)
    (h : ∀ j, memKeyB j a = true → memKeyB j b = false) : disjB a b = true := by
  induction a with
  | nil => simp [disjB]
  | cons k rest ih =>
    simp only [disjB, List.all_cons, Bool.and_eq_true, Bool.not_eq_true']
    constructor
    · exact h k (by simp [memKeyB])
    · exact ih (fun j hj => h j (by simp [memKeyB, hj]))

theorem tiersOK_of_inv (p : List String × List String) (h : TiersInv p) :
    tiersOK p = true := by
  rcases h with ⟨h1, h2, h3⟩
  simp only [tiersOK, Bool.and_eq_true]
  exact ⟨⟨h1, h2⟩, disjB_of_forall _ _ h3⟩

/-- Case analysis of `applySponsorAction · true`. -/
theorem applyAdd_cases (names : List String) (n : String) :
    applySponsorAction names n true = names ∨
    (applySponsorAction names n true = names ++ [n] ∧ normalize_name n ≠ "" ∧
      memKeyB (normalize_name n) (names.map normalize_name) = false) := by
  unfold applySponsorAction
  by_cases hn : n = ""
  · simp [hn]
  · rw [if_neg hn]
    by_cases hk : normalize_name n = ""
    · simp [hk]
    · rw [if_neg hk, if_pos rfl]
      by_cases hdup : (names.any fun e => normalize_name e = normalize_name n) = true
      · simp [hdup]
      · right
        refine ⟨by simp [hdup], hk, ?_⟩
        rw [← anyKey_eq_memKeyB]
        simpa using hdup

/-- Case analysis of `applySponsorAction · false`. -/
theorem applyRemove_cases (names : List String) (n : String) :
    applySponsorAction names n false = names ∨
    applySponsorAction names n false = removeFirstByKey names (normalize_name n) := by
  unfold applySponsorAction
  by_cases hn : n = ""
  · simp [hn]
  · rw [if_neg hn]
    by_cases hk : normalize_name n = ""
    · simp [hk]
    · rw [if_neg hk]
      simp

/-- Membership after a removal implies membership before, whatever branch
was taken. -/
theorem applyRemove_mem (names : List String) (n j : String)
    (h : memKeyB j ((applySponsorAction names n false).map normalize_name) = true) :
    memKeyB j (names.map normalize_name) = true := by
  rcases applyRemove_cases names n with heq | heq
  · rwa [heq] at h
  · rw [heq] at h
    exact removeFirstByKey_mem names _ j h

theorem applyRemove_nodup (names : List String) (n : String)
    (h : nodupB (names.map normalize_name) = true) :
    nodupB ((applySponsorAction names n false).map normalize_name) = true := by
  rcases applyRemove_cases names n with heq | heq
  · rwa [heq]
  · rw [heq]
    exact removeFirstByKey_nodup names _ h

/-- `applySponsorAction · true` (add with de-duplication) on the chief tier
together with `applySponsorAction · false` on the co tier (promotion)
preserves the invariant. -/
theorem tiersInv_chief_add (p : List String × List String) (n : String)
    (h : TiersInv p) :
    TiersInv (applySponsorAction p.1 n true, applySponsorAction p.2 n false) := by
  rcases h with ⟨h1, h2, h3⟩
  have hsub : ∀ j, memKeyB j (p.2.map normalize_name) = false →
      memKeyB j ((applySponsorAction p.2 n false).map normalize_name) = false := by
    intro j hj
    by_cases hmem : memKeyB j ((applySponsorAction p.2 n false).map normalize_name) = true
    · exact absurd (applyRemove_mem p.2 n j hmem) (by simp [hj])
    · simpa using hmem
  have h2r : nodupB ((applySponsorAction p.2 n false).map normalize_name) = true :=
    applyRemove_nodup p.2 n h2
  rcases applyAdd_cases p.1 n with heq | ⟨heq, hk, hnew⟩
  · rw [heq]
    exact ⟨h1, h2r, fun j hj => hsub j (h3 j hj)⟩
  · rw [heq]
    refine ⟨?_, h2r, ?_⟩
    · rw [List.map_append]
      exact nodupB_append_singleton _ _ h1 (by simpa using hnew)
    · intro j hj
      rw [List.map_append, memKeyB_append, Bool.or_eq_true] at hj
      rcases hj with hj | hj
      · exact hsub j (h3 j hj)
      · have hjk : normalize_name n = j := by
          simpa [memKeyB] using hj
        subst hjk
        rcases applyRemove_cases p.2 n with he2 | he2
        · -- the no-op equation still lets us rewrite back to a removal,
          -- since the name and its key are nonempty here
          by_cases hn : n = ""
          · exact absurd (by simp [hn, normalize_name, normalizeNameL]) hk
          · rw [he2]
            unfold applySponsorAction at he2
            rw [if_neg hn, if_neg hk, if_neg (by simp)] at he2
            rw [← he2]
            exact removeFirstByKey_not_mem p.2 _ h2
        · rw [he2]
          exact removeFirstByKey_not_mem p.2 _ h2

/-- Removing from the chief tier preserves the invariant. -/
theorem tiersInv_chief_remove (p : List String × List String) (n : String)
    (h : TiersInv p) : TiersInv (applySponsorAction p.1 n false, p.2) := by
  rcases h with ⟨h1, h2, h3⟩
  exact ⟨applyRemove_nodup p.1 n h1, h2,
    fun j hj => h3 j (applyRemove_mem p.1 n j hj)⟩

/-- Removing from the co tier preserves the invariant. -/
theorem tiersInv_co_remove (p : List String × List String) (n : String)
    (h : TiersInv p) : TiersInv (p.1, applySponsorAction p.2 n false) := by
  rcases h with ⟨h1, h2, h3⟩
  refine ⟨h1, applyRemove_nodup p.2 n h2, fun j hj => ?_⟩
  by_cases hmem : memKeyB j ((applySponsorAction p.2 n false).map normalize_name) = true
  · exact absurd (applyRemove_mem p.2 n j hmem) (by simp [h3 j hj])
  · simpa using hmem

/-- The guarded co-tier add (skipped when the normalized name already sits
in the chief tier) preserves the invariant. -/
theorem tiersInv_co_add_item (p : List String × List String) (n : String)
    (h : TiersInv p) :
    TiersInv (if p.1.any (fun e => normalize_name e = normalize_name n) then p
              else (p.1, applySponsorAction p.2 n true)) := by
  by_cases hchk : (p.1.any fun e => normalize_name e = normalize_name n) = true
  · rwa [if_pos hchk]
  · rw [if_neg (by simpa using hchk)]
    rcases h with ⟨h1, h2, h3⟩
    rcases applyAdd_cases p.2 n with heq | hcase
    · rw [heq]
      exact ⟨h1, h2, h3⟩
    · rcases hcase with ⟨heq, hk, hnew⟩
      rw [heq]
      refine ⟨h1, ?_, ?_⟩
      · rw [List.map_append]
        exact nodupB_append_singleton _ _ h2 (by simpa using hnew)
      · intro j hj
        rw [List.map_append, memKeyB_append]
        rw [anyKey_eq_memKeyB] at hchk
        have hl : memKeyB j (p.2.map normalize_name) = false := h3 j hj
        have hr : memKeyB j [normalize_name n] = false := by
          simp only [memKeyB, Bool.or_false, decide_eq_false_iff_not]
          intro hnj
          rw [hnj] at hchk
          simp [hj] at hchk
        simp [hl, hr]

/-- A fold preserves any invariant its step preserves. -/
theorem foldl_preserve {α β : Type} (P : α → Prop) (f : α → β → α)
    (h : ∀ a b, P a → P (f a b)) : ∀ (l : List β) (a : α), P a → P (l.foldl f a) := by
  intro l
  induction l with
  | nil => intro a ha; exact ha
  | cons b t ih => intro a ha; exact ih _ (h a b ha)

/-- One action step preserves the tier invariant, whatever trigger fires. -/
theorem tiersInv_step (st : List String × List String) (a : ILAction)
    (h : TiersInv st) : TiersInv (sponsorChangeStep st a) := by
  unfold sponsorChangeStep
  dsimp only
  split_ifs with h1 h2 h3 h4 h5
  · exact h
  · exact foldl_preserve TiersInv _
      (fun p n hp => tiersInv_chief_add p (String.mk n) hp) _ st h
  · exact foldl_preserve TiersInv _
      (fun p n hp => tiersInv_chief_remove p (String.mk n) hp) _ st h
  · exact foldl_preserve TiersInv _
      (fun p n hp => tiersInv_co_add_item p (String.mk n) hp) _ st h
  · exact foldl_preserve TiersInv _
      (fun p n hp => tiersInv_co_remove p (String.mk n) hp) _ st h
  · exact h

/-- C4: after processing any action sequence, the chief and plain co-sponsor
tiers are duplicate-free and disjoint under normalized-name equality
(promotion removes a name from the lower tier, guarded adds skip names
already in the chief tier), and a removal deletes at most one entry from
its tier. Every prefix of an action list is itself an action list, so the
first conjunct covers all intermediate states of the fold. -/
theorem c4_tier_disjointness :
    (∀ acts : List ILAction, tiersOK (extractSponsorChangesFromActions acts) = true) ∧
    (∀ (names : List String) (name : String),
      (applySponsorAction names name false).length ≤ names.length ∧
      names.length ≤ (applySponsorAction names name false).length + 1) := by
  constructor
  · intro acts
    apply tiersOK_of_inv
    unfold extractSponsorChangesFromActions
    refine foldl_preserve TiersInv sponsorChangeStep
      (fun st a hst => tiersInv_step st a hst) acts ([], []) ?_
    exact ⟨rfl, rfl, fun j hj => absurd hj (by simp [memKeyB])⟩
  · intro names name
    rcases applyRemove_cases names name with heq | heq
    · rw [heq]; omega
    · rw [heq]
      exact removeFirstByKey_length names (normalize_name name)


/-- If the matcher fails on a nonempty name, it logs exactly the
`{rawName, chamberHint, normalizedKey}` entry. -/
theorem ilMatch_none_logged (members : List ILMember) (n ch : String)
    (hn : n ≠ "") (h : (ilMatch members n ch).result = none) :
    (ilMatch members n ch).logged = some ⟨n, ch, normalize_name n⟩ := by
  cases hE : findExact members (normalize_name n) with
  | some m =>
    have hIl : ilMatch members n ch = ⟨some m, none⟩ := by
      unfold ilMatch
      rw [if_neg hn]
      dsimp only
      rw [hE]
    rw [hIl] at h
    simp at h
  | none =>
    cases hS : findSimple members (normalize_name_for_lookup n) with
    | some m =>
      have hIl : ilMatch members n ch = ⟨some m, none⟩ := by
        unfold ilMatch
        rw [if_neg hn]
        dsimp only
        rw [hE, hS]
      rw [hIl] at h
      simp at h
    | none =>
      cases hF : matchFiltered members n ch with
      | nil =>
        cases hC : matchCands members n with
        | nil =>
          have hIl : ilMatch members n ch = ⟨none, some ⟨n, ch, normalize_name n⟩⟩ := by
            unfold ilMatch
            rw [if_neg hn]
            dsimp only
            rw [hE, hS, hF, hC]
          rw [hIl]
        | cons c cs =>
          cases cs with
          | nil =>
            have hIl : ilMatch members n ch = ⟨some c, none⟩ := by
              unfold ilMatch
              rw [if_neg hn]
              dsimp only
              rw [hE, hS, hF, hC]
            rw [hIl] at h
            simp at h
          | cons c2 cs2 =>
            have hIl : ilMatch members n ch = ⟨none, some ⟨n, ch, normalize_name n⟩⟩ := by
              unfold ilMatch
              rw [if_neg hn]
              dsimp only
              rw [hE, hS, hF, hC]
            rw [hIl]
      | cons f fs =>
        cases fs with
        | nil =>
          have hIl : ilMatch members n ch = ⟨some f, none⟩ := by
            unfold ilMatch
            rw [if_neg hn]
            dsimp only
            rw [hE, hS, hF]
          rw [hIl] at h
          simp at h
        | cons f2 fs2 =>
          cases hC : matchCands members n with
          | nil =>
            have hIl : ilMatch members n ch = ⟨none, some ⟨n, ch, normalize_name n⟩⟩ := by
              unfold ilMatch
              rw [if_neg hn]
              dsimp only
              rw [hE, hS, hF, hC]
            rw [hIl]
          | cons c cs =>
            cases cs with
            | nil =>
              have hIl : ilMatch members n ch = ⟨some c, none⟩ := by
                unfold ilMatch
                rw [if_neg hn]
                dsimp only
                rw [hE, hS, hF, hC]
              rw [hIl] at h
              simp at h
            | cons c2 cs2 =>
              have hIl : ilMatch members n ch = ⟨none, some ⟨n, ch, normalize_name n⟩⟩ := by
                unfold ilMatch
                rw [if_neg hn]
                dsimp only
                rw [hE, hS, hF, hC]
              rw [hIl]

/-- C7: when both the exact-normalized lookup and the simplified first+last
lookup miss, the matcher returns the unique chamber-filtered last-name
candidate if there is exactly one, else the unique last-name candidate,
and otherwise returns none while appending `{rawName, chamberHint,
normalizedKey}` to its unmatched list; an empty raw name returns none
without logging. -/
theorem c7_matcher_disambiguation (members : List ILMember) (raw ch : String) :
    (raw = "" → ilMatch members raw ch = ⟨none, none⟩) ∧
    (raw ≠ "" →
      findExact members (normalize_name raw) = none →
      findSimple members (normalize_name_for_lookup raw) = none →
      ((∃ f, matchFiltered members raw ch = [f] ∧
          ilMatch members raw ch = ⟨some f, none⟩) ∨
       ((∀ f, matchFiltered members raw ch ≠ [f]) ∧
         ∃ c, matchCands members raw = [c] ∧
           ilMatch members raw ch = ⟨some c, none⟩) ∨
       ((∀ f, matchFiltered members raw ch ≠ [f]) ∧
         (∀ c, matchCands members raw ≠ [c]) ∧
         ilMatch members raw ch = ⟨none, some ⟨raw, ch, normalize_name raw⟩⟩))) := by
  constructor
  · intro h
    simp [ilMatch, h]
  · intro h1 h2 h3
    have hIl : ilMatch members raw ch =
        (match matchFiltered members raw ch with
         | [f] => (⟨some f, none⟩ : MatchOutcome)
         | _ =>
           match matchCands members raw with
           | [c] => (⟨some c, none⟩ : MatchOutcome)
           | _ => ⟨none, some ⟨raw, ch, normalize_name raw⟩⟩) := by
      unfold ilMatch
      rw [if_neg h1]
      dsimp only
      rw [h2, h3]
    cases hF : matchFiltered members raw ch with
    | nil =>
      cases hC : matchCands members raw with
      | nil =>
        right; right
        exact ⟨by simp [hF], by simp [hC], by rw [hIl, hF, hC]⟩
      | cons c cs =>
        cases cs with
        | nil =>
          right; left
          exact ⟨by simp [hF], c, rfl, by rw [hIl, hF, hC]⟩
        | cons c2 cs2 =>
          right; right
          exact ⟨by simp [hF], by simp [hC], by rw [hIl, hF, hC]⟩
    | cons f fs =>
      cases fs with
      | nil =>
        left
        exact ⟨f, rfl, by rw [hIl, hF]⟩
      | cons f2 fs2 =>
        cases hC : matchCands members raw with
        | nil =>
          right; right
          exact ⟨by simp [hF], by simp [hC], by rw [hIl, hF, hC]⟩
        | cons c cs =>
          cases cs with
          | nil =>
            right; left
            exact ⟨by simp [hF], c, rfl, by rw [hIl, hF, hC]⟩
          | cons c2 cs2 =>
            right; right
            exact ⟨by simp [hF], by simp [hC], by rw [hIl, hF, hC]⟩

/-- Witness for C7: two legislators share the last name "Smith" in
different chambers; "Rep. Q Smith" misses both direct lookups and resolves
through the chamber hint. -/
theorem c7_matcher_disambiguation_witness :
    (("Rep. Q Smith" : String) ≠ "" ∧
      findExact [exJohn, exJane] (normalize_name "Rep. Q Smith") = none ∧
      findSimple [exJohn, exJane] (normalize_name_for_lookup "Rep. Q Smith") = none) ∧
    ((∃ f, matchFiltered [exJohn, exJane] "Rep. Q Smith" "house" = [f] ∧
        ilMatch [exJohn, exJane] "Rep. Q Smith" "house" = ⟨some f, none⟩) ∨
     ((∀ f, matchFiltered [exJohn, exJane] "Rep. Q Smith" "house" ≠ [f]) ∧
       ∃ c, matchCands [exJohn, exJane] "Rep. Q Smith" = [c] ∧
         ilMatch [exJohn, exJane] "Rep. Q Smith" "house" = ⟨some c, none⟩) ∨
     ((∀ f, matchFiltered [exJohn, exJane] "Rep. Q Smith" "house" ≠ [f]) ∧
       (∀ c, matchCands [exJohn, exJane] "Rep. Q Smith" ≠ [c]) ∧
       ilMatch [exJohn, exJane] "Rep. Q Smith" "house" =
         ⟨none, some ⟨"Rep. Q Smith", "house", normalize_name "Rep. Q Smith"⟩⟩)) :=
  ⟨⟨by decide, by decide, by decide⟩,
   (c7_matcher_disambiguation [exJohn, exJane] "Rep. Q Smith" "house").2
     (by decide) (by decide) (by decide)⟩


/-! ### Association-list lemmas -/

theorem assocFind_cons {α : Type} (k0 : String) (v0 : α) (rest : List (String × α))
    (q : String) :
    assocFind ((k0, v0) :: rest) q = if k0 = q then some v0 else assocFind rest q := by
  by_cases h : k0 = q
  · simp only [assocFind, if_pos h]
    rw [List.find?_cons_of_pos _ (by simpa using h)]
    rfl
  · simp only [assocFind, if_neg h]
    rw [List.find?_cons_of_neg _ (by simpa using h)]

theorem assocSet_cons {α : Type} (k0 : String) (v0 : α) (rest : List (String × α))
    (k : String) (v : α) :
    assocSet ((k0, v0) :: rest) k v =
      if k0 = k then (k0, v) :: rest else (k0, v0) :: assocSet rest k v := rfl

theorem assocFind_assocSet {α : Type} (l : List (String × α)) (k q : String) (v : α) :
    assocFind (assocSet l k v) q =
      if q = k then (assocFind l k).map (fun _ => v) else assocFind l q := by
  induction l with
  | nil =>
    by_cases hq : q = k <;> simp [assocSet, assocFind, hq]
  | cons p rest ih =>
    rcases p with ⟨k0, v0⟩
    rw [assocSet_cons]
    by_cases hk0 : k0 = k
    · subst hk0
      by_cases hq : k0 = q
      · subst hq
        simp [assocFind_cons]
      · simp [assocFind_cons, hq, Ne.symm hq]
    · by_cases hq : k0 = q
      · subst hq
        simp [assocFind_cons, hk0, Ne.symm hk0]
      · simp [assocFind_cons, hq, hk0, ih]

theorem assocFind_append {α : Type} (l1 l2 : List (String × α)) (q : String) :
    assocFind (l1 ++ l2) q = ((l1.find? (fun p => p.1 = q)).or
      (l2.find? (fun p => p.1 = q))).map Prod.snd := by
  simp [assocFind, List.find?_append]

theorem assocFind_append_of_none {α : Type} (l1 l2 : List (String × α)) (q : String)
    (h : assocFind l1 q = none) :
    assocFind (l1 ++ l2) q = assocFind l2 q := by
  rw [assocFind_append]
  have h2 : l1.find? (fun p => p.1 = q) = none := by
    unfold assocFind at h
    cases hf : l1.find? (fun p => p.1 = q) with
    | none => rfl
    | some v => rw [hf] at h; simp at h
  rw [h2]
  rfl

theorem assocFind_append_of_some {α : Type} (l1 l2 : List (String × α)) (q : String)
    (v : α) (h : assocFind l1 q = some v) :
    assocFind (l1 ++ l2) q = some v := by
  rw [assocFind_append]
  unfold assocFind at h
  cases hf : l1.find? (fun p => p.1 = q) with
  | none => rw [hf] at h; simp at h
  | some p =>
    rw [hf] at h
    simp at h
    simp [Option.or, h]

theorem assocFind_append_singleton_ne {α : Type} (l : List (String × α)) (k q : String)
    (v : α) (h : q ≠ k) : assocFind (l ++ [(k, v)]) q = assocFind l q := by
  cases hf : assocFind l q with
  | some w => exact assocFind_append_of_some l _ q w hf
  | none =>
    rw [assocFind_append_of_none l _ q hf, assocFind_cons,
      if_neg (fun hk : k = q => h hk.symm)]
    rfl

/-! ### C5: co-sponsor application (national aggregator) -/

/-- One processed co-sponsor bumps `cosponsor_total` of its bioguide id by
exactly one, whether the row existed or not. -/
theorem natCosponsorTotal_update (byS : List (String × NatRow)) (c : Cosponsor)
    (bc : String) (g : String) :
    natCosponsorTotal g
      (match assocFind byS c.bioguideId with
       | some r => assocSet byS c.bioguideId (bumpCosponsor c r)
       | none => byS ++ [(c.bioguideId, bumpCosponsor c (initNatRowFromCosponsor c bc))]) =
      natCosponsorTotal g byS + (if c.bioguideId = g then 1 else 0) := by
  cases hf : assocFind byS c.bioguideId with
  | some r =>
    unfold natCosponsorTotal
    rw [assocFind_assocSet]
    by_cases hg : g = c.bioguideId
    · subst hg
      rw [if_pos rfl, hf]
      simp [bumpCosponsor]
    · rw [if_neg hg, if_neg (fun h => hg h.symm)]
      omega
  | none =>
    unfold natCosponsorTotal
    by_cases hg : g = c.bioguideId
    · subst hg
      rw [assocFind_append_of_none byS _ _ hf, if_pos rfl, hf]
      simp [assocFind, List.find?, bumpCosponsor, initNatRowFromCosponsor]
    · rw [assocFind_append_singleton_ne byS _ _ _ hg,
        if_neg (fun h => hg h.symm)]
      omega

/-- The seen-set-generalized count equation for `applyCosponsorsAux`. -/
theorem applyCosponsorsAux_count (bc pg : String) (cos : List Cosponsor) :
    ∀ (seen : List String) (byS : List (String × NatRow)) (g : String), g ≠ "" →
    natCosponsorTotal g (applyCosponsorsAux bc pg cos seen byS) =
      natCosponsorTotal g byS +
        (if seen.contains g = false ∧ g ≠ pg ∧
            ∃ c ∈ cos, c.bioguideId = g ∧ c.withdrawn = false then 1 else 0) := by
  induction cos with
  | nil =>
    intro seen byS g hg
    simp [applyCosponsorsAux]
  | cons c rest ih =>
    intro seen byS g hg
    unfold applyCosponsorsAux
    by_cases hw : c.withdrawn = true
    · rw [if_pos hw, ih seen byS g hg]
      congr 1
      refine if_congr ⟨?_, ?_⟩ rfl rfl
      · intro hcond
        rcases hcond.2.2 with ⟨x, hx, hxg, hxw⟩
        exact ⟨hcond.1, hcond.2.1, x, by simp [hx], hxg, hxw⟩
      · intro hcond
        refine ⟨hcond.1, hcond.2.1, ?_⟩
        rcases hcond.2.2 with ⟨x, hx, hxg, hxw⟩
        rcases List.mem_cons.mp hx with hxc | hxr
        · subst hxc
          exact absurd hxw (by simp [hw])
        · exact ⟨x, hxr, hxg, hxw⟩
    · rw [if_neg hw]
      have hwf : c.withdrawn = false := by simpa using hw
      by_cases hskip : c.bioguideId = "" ∨ c.bioguideId = pg
      · rw [if_pos (by simpa using hskip), ih seen byS g hg]
        congr 1
        refine if_congr ⟨?_, ?_⟩ rfl rfl
        · intro hcond
          rcases hcond.2.2 with ⟨x, hx, hxg, hxw⟩
          exact ⟨hcond.1, hcond.2.1, x, by simp [hx], hxg, hxw⟩
        · intro hcond
          refine ⟨hcond.1, hcond.2.1, ?_⟩
          rcases hcond.2.2 with ⟨x, hx, hxg, hxw⟩
          rcases List.mem_cons.mp hx with hxc | hxr
          · subst hxc
            rcases hskip with hid | hid
            · exact absurd (hid ▸ hxg) (fun he => hg he.symm)
            · exact absurd (hid ▸ hxg).symm hcond.2.1
          · exact ⟨x, hxr, hxg, hxw⟩
      · push_neg at hskip
        rw [if_neg (by simp [hskip.1, hskip.2])]
        by_cases hseen : seen.contains c.bioguideId = true
        · rw [if_pos hseen, ih seen byS g hg]
          congr 1
          have hseenm : c.bioguideId ∈ seen := by simpa using hseen
          by_cases hgc : c.bioguideId = g
          · subst hgc
            rw [if_neg (by simp [hseenm]), if_neg (by simp [hseenm])]
          · refine if_congr ⟨?_, ?_⟩ rfl rfl
            · intro hcond
              rcases hcond.2.2 with ⟨x, hx, hxg, hxw⟩
              exact ⟨hcond.1, hcond.2.1, x, by simp [hx], hxg, hxw⟩
            · intro hcond
              refine ⟨hcond.1, hcond.2.1, ?_⟩
              rcases hcond.2.2 with ⟨x, hx, hxg, hxw⟩
              rcases List.mem_cons.mp hx with hxc | hxr
              · subst hxc
                exact absurd hxg hgc
              · exact ⟨x, hxr, hxg, hxw⟩
        · rw [if_neg hseen]
          rw [ih (c.bioguideId :: seen) _ g hg]
          rw [natCosponsorTotal_update byS c bc g]
          by_cases hgc : c.bioguideId = g
          · subst hgc
            have e1 : (if c.bioguideId = c.bioguideId then 1 else 0) = 1 := by simp
            have e2 : (if ((c.bioguideId :: seen).contains c.bioguideId = false ∧
                c.bioguideId ≠ pg ∧
                ∃ x ∈ rest, x.bioguideId = c.bioguideId ∧ x.withdrawn = false)
                then 1 else 0) = 0 := by
              apply if_neg
              intro hcontra
              have hx := hcontra.1
              simp [List.contains_cons] at hx
            have e3 : (if (seen.contains c.bioguideId = false ∧ c.bioguideId ≠ pg ∧
                ∃ x ∈ (c :: rest), x.bioguideId = c.bioguideId ∧ x.withdrawn = false)
                then 1 else 0) = 1 :=
              if_pos ⟨by simpa using hseen, hskip.2, c, by simp, rfl, hwf⟩
            rw [e1, e2, e3]
          · rw [if_neg hgc, Nat.add_zero]
            congr 1
            refine if_congr ⟨?_, ?_⟩ rfl rfl
            · intro hcond
              have hc1 : seen.contains g = false := by
                have := hcond.1
                simp only [List.contains_cons, Bool.or_eq_false_iff] at this
                exact this.2
              rcases hcond.2.2 with ⟨x, hx, hxg, hxw⟩
              exact ⟨hc1, hcond.2.1, x, by simp [hx], hxg, hxw⟩
            · intro hcond
              have hc1 : (c.bioguideId :: seen).contains g = false := by
                simp only [List.contains_cons, Bool.or_eq_false_iff]
                refine ⟨?_, hcond.1⟩
                simpa using fun h => hgc h.symm
              refine ⟨hc1, hcond.2.1, ?_⟩
              rcases hcond.2.2 with ⟨x, hx, hxg, hxw⟩
              rcases List.mem_cons.mp hx with hxc | hxr
              · subst hxc
                exact absurd hxg hgc
              · exact ⟨x, hxr, hxg, hxw⟩


/-- A fully withdrawn co-sponsor list changes nothing. -/
theorem applyCosponsorsAux_withdrawn (bc pg : String) (cos : List Cosponsor)
    (h : ∀ c ∈ cos, c.withdrawn = true) :
    ∀ (seen : List String) (byS : List (String × NatRow)),
      applyCosponsorsAux bc pg cos seen byS = byS := by
  induction cos with
  | nil => intro seen byS; rfl
  | cons c rest ih =>
    intro seen byS
    unfold applyCosponsorsAux
    rw [if_pos (h c (by simp))]
    exact ih (fun x hx => h x (by simp [hx])) seen byS

/-- The primary sponsor's row is never created or updated by co-sponsor
application. -/
theorem applyCosponsorsAux_primary (bc pg : String) (cos : List Cosponsor) :
    ∀ (seen : List String) (byS : List (String × NatRow)),
      assocFind (applyCosponsorsAux bc pg cos seen byS) pg = assocFind byS pg := by
  induction cos with
  | nil => intro seen byS; rfl
  | cons c rest ih =>
    intro seen byS
    unfold applyCosponsorsAux
    by_cases hw : c.withdrawn = true
    · rw [if_pos hw]
      exact ih seen byS
    · rw [if_neg hw]
      by_cases hskip : (c.bioguideId = "" || c.bioguideId = pg) = true
      · rw [if_pos hskip]
        exact ih seen byS
      · rw [if_neg hskip]
        by_cases hseen : seen.contains c.bioguideId = true
        · rw [if_pos hseen]
          exact ih seen byS
        · rw [if_neg hseen]
          have hne : pg ≠ c.bioguideId := by
            simp only [Bool.or_eq_true, decide_eq_true_eq] at hskip
            push_neg at hskip
            exact fun h => hskip.2 h.symm
          rw [ih]
          cases hf : assocFind byS c.bioguideId with
          | some r => rw [assocFind_assocSet, if_neg hne]
          | none => exact assocFind_append_singleton_ne byS _ _ _ hne

/-- C5 (amended for the national aggregator `_apply_cosponsors_to_totals`):
a plain co-sponsor increments `cosponsor_total` at most once per bill
(de-duplicated by bioguide id), the bill's primary sponsor is never counted
(their row is not even touched), and withdrawn co-sponsors contribute to no
tally. The Illinois aggregator does not share these guards (see the
counterexample). -/
theorem c5_cosponsor_counting (cos : List Cosponsor) (byS : List (String × NatRow))
    (bc pg g : String) (hg : g ≠ "") :
    (natCosponsorTotal g (applyCosponsorsToTotals cos byS bc pg) =
      natCosponsorTotal g byS +
        (if g ≠ pg ∧ ∃ c ∈ cos, c.bioguideId = g ∧ c.withdrawn = false then 1 else 0)) ∧
    ((∀ c ∈ cos, c.withdrawn = true) → applyCosponsorsToTotals cos byS bc pg = byS) ∧
    assocFind (applyCosponsorsToTotals cos byS bc pg) pg = assocFind byS pg := by
  refine ⟨?_, ?_, ?_⟩
  · rw [applyCosponsorsToTotals, applyCosponsorsAux_count bc pg cos [] byS g hg]
    congr 1
    refine if_congr ⟨?_, ?_⟩ rfl rfl
    · intro h
      exact ⟨h.2.1, h.2.2⟩
    · intro h
      exact ⟨rfl, h.1, h.2⟩
  · intro h
    exact applyCosponsorsAux_withdrawn bc pg cos h [] byS
  · exact applyCosponsorsAux_primary bc pg cos [] byS

/-- Witness for the amended C5. -/
theorem c5_cosponsor_counting_witness :
    ("C000001" : String) ≠ "" ∧
    ((natCosponsorTotal "C000001"
        (applyCosponsorsToTotals [exCosponsor] [] "House" "P000001") =
      natCosponsorTotal "C000001" [] +
        (if ("C000001" : String) ≠ "P000001" ∧
            ∃ c ∈ [exCosponsor], c.bioguideId = "C000001" ∧ c.withdrawn = false
         then 1 else 0)) ∧
     ((∀ c ∈ [exCosponsor], c.withdrawn = true) →
        applyCosponsorsToTotals [exCosponsor] [] "House" "P000001" = []) ∧
     assocFind (applyCosponsorsToTotals [exCosponsor] [] "House" "P000001") "P000001" =
       assocFind ([] : List (String × NatRow)) "P000001") :=
  ⟨by decide, c5_cosponsor_counting [exCosponsor] [] "House" "P000001" "C000001" (by decide)⟩

/-- C5 (counterexample to the claim as stated, on the Illinois aggregator):
a bill whose resolved primary sponsor (Bob Red) also appears in its plain
co-sponsor list gives Bob `co_sponsor_total = 1`, although the claim says a
co-sponsor who is the bill's resolved primary sponsor is not counted. -/
theorem c5_il_counts_primary_as_cosponsor :
    ((ilMatch [exAlice, exBob] (effectivePrimary exSelfCoBill)
        (chamberOfBillType (pyLowerS exSelfCoBill.bill_type))).result.map
      ILMember.member_id = some "104-house-2") ∧
    ((assocFind (ilAggregate [exAlice, exBob] [exSelfCoBill]).byMember
        "104-house-2").map ILRow.co_sponsor_total = some 1) := by
  exact ⟨by decide, by decide⟩


/-- C6 (amended, Illinois aggregator): a bill whose primary sponsor cannot
be resolved only increments the unmatched counters; `by_member` and the law
list are untouched, so no legislator's record is created or updated by that
bill. (In the national aggregator the bill's co-sponsors are still applied;
see the counterexample.) -/
theorem c6_unresolved_sponsor_skips_il_bill (members : List ILMember) (st : ILAgg)
    (b : ILBill)
    (h : effectivePrimary b = "" ∨
      (ilMatch members (effectivePrimary b)
        (chamberOfBillType (pyLowerS b.bill_type))).result = none) :
    ilStep members st b =
      { st with unmatchedLoop := st.unmatchedLoop + 1,
                matcherLogged := st.matcherLogged +
                  (if effectivePrimary b = "" then 0 else 1) } := by
  by_cases hpn : effectivePrimary b = ""
  · unfold ilStep
    rw [if_pos hpn, if_pos hpn]
    simp
  · rcases h with h | h
    · exact absurd h hpn
    · unfold ilStep
      rw [if_neg hpn]
      dsimp only
      rw [h, ilMatch_none_logged members _ _ hpn h, if_neg hpn]
      rfl

/-- Witness for the amended C6 at a bill whose sponsor matches nobody. -/
theorem c6_unresolved_sponsor_skips_il_bill_witness :
    ((ilMatch [exAlice, exBob] (effectivePrimary exUnresolvedBill)
        (chamberOfBillType (pyLowerS exUnresolvedBill.bill_type))).result = none) ∧
    ilStep [exAlice, exBob] ⟨[], [], 0, 0⟩ exUnresolvedBill =
      { (⟨[], [], 0, 0⟩ : ILAgg) with
          unmatchedLoop := 0 + 1,
          matcherLogged := 0 + (if effectivePrimary exUnresolvedBill = "" then 0 else 1) } :=
  ⟨by decide,
   c6_unresolved_sponsor_skips_il_bill [exAlice, exBob] ⟨[], [], 0, 0⟩
     exUnresolvedBill (Or.inr (by decide))⟩

/-- C6 (counterexample to the claim as stated, on the national aggregator
`build_stats`): a bill whose sponsor is unresolved increments the
missing-sponsor total, yet the fallback loop of lines 876–886 still applies
its co-sponsors, creating a `SponsorRecord` with `cosponsor_total = 1`. -/
theorem c6_national_applies_cosponsors_of_sponsorless_bill :
    (buildStatsTally 119 [(exCBill, none)] [("119-hr-10", [exCosponsor])]
        [("119-hr-10", exCBill)] []).missingSponsor = 1 ∧
    natCosponsorTotal "C000001"
      (buildStatsTally 119 [(exCBill, none)] [("119-hr-10", [exCosponsor])]
        [("119-hr-10", exCBill)] []).bySponsor = 1 := by
  exact ⟨by decide, by decide⟩


/-! ### C2: incremental merge equals one run over the union -/

theorem assocFind_map_pair (S : List ILBill) (q : String)
    (h : q ∉ S.map ILBill.bill_id) :
    assocFind (S.map (fun b => (b.bill_id, b))) q = none := by
  induction S with
  | nil => rfl
  | cons x rest ih =>
    rw [List.map_cons, assocFind_cons,
      if_neg (fun he : x.bill_id = q => h (by simp [← he]))]
    exact ih (fun hm => h (by simp [hm]))

/-- Inserting pairwise-fresh bills appends them in order. -/
theorem foldl_insertBillById_append (S : List ILBill) :
    ∀ acc : List (String × ILBill),
      (∀ b ∈ S, b.bill_id ≠ "") → (S.map ILBill.bill_id).Nodup →
      (∀ b ∈ S, assocFind acc b.bill_id = none) →
      S.foldl insertBillById acc = acc ++ S.map (fun b => (b.bill_id, b)) := by
  induction S with
  | nil => intro acc _ _ _; simp
  | cons b rest ih =>
    intro acc h1 h2 h3
    rw [List.foldl_cons]
    have hins : insertBillById acc b = acc ++ [(b.bill_id, b)] := by
      unfold insertBillById
      rw [if_neg (h1 b (by simp)), h3 b (by simp)]
    rw [hins]
    rw [List.map_cons] at h2
    have h2r := (List.nodup_cons.mp h2).2
    have hbn : ∀ x ∈ rest, x.bill_id ≠ b.bill_id := by
      intro x hx he
      exact (List.nodup_cons.mp h2).1 (he ▸ List.mem_map_of_mem ILBill.bill_id hx)
    rw [ih (acc ++ [(b.bill_id, b)]) (fun x hx => h1 x (by simp [hx])) h2r ?_]
    · simp
    · intro x hx
      rw [assocFind_append_singleton_ne acc _ _ _ (hbn x hx)]
      exact h3 x (by simp [hx])

/-- The step-4b merge of an id-distinct persisted set with one fresh bill
is exactly the appended list. -/
theorem mergeBillsById_fresh (S : List ILBill) (b : ILBill)
    (h1 : ∀ x ∈ S, x.bill_id ≠ "") (h2 : (S.map ILBill.bill_id).Nodup)
    (h3 : b.bill_id ≠ "") (h4 : b.bill_id ∉ S.map ILBill.bill_id) :
    mergeBillsById S [b] [] = S ++ [b] := by
  unfold mergeBillsById
  rw [foldl_insertBillById_append S [] h1 h2 (fun x _ => rfl)]
  rw [List.nil_append]
  have hb : insertBillById (S.map (fun x => (x.bill_id, x))) b =
      S.map (fun x => (x.bill_id, x)) ++ [(b.bill_id, b)] := by
    unfold insertBillById
    rw [if_neg h3, assocFind_map_pair S b.bill_id h4]
  rw [List.foldl_cons, List.foldl_nil, hb, List.foldl_nil]
  rw [List.map_append, List.map_map,
    show (Prod.snd ∘ fun x : ILBill => (x.bill_id, x)) = id from rfl, List.map_id]
  rfl


/-- Upserting with a counter bump `d` adds `d` to the member's counters and
changes nobody else's. -/
theorem ilRowCounts_upsert (byM : List (String × ILRow)) (mem : ILMember)
    (f : ILRow → ILRow) (d : Nat × Nat × Nat × Nat × Nat)
    (hf : ∀ r, countsVec (f r) = countsVec r + d) (mid : String) :
    ilRowCounts mid (upsertRow byM mem f) =
      ilRowCounts mid byM + (if mem.member_id = mid then d else 0) := by
  unfold upsertRow
  cases hfind : assocFind byM mem.member_id with
  | some r =>
    unfold ilRowCounts
    rw [assocFind_assocSet]
    by_cases hm : mid = mem.member_id
    · rw [if_pos hm, if_pos hm.symm, hm, hfind]
      simp [hf r]
    · rw [if_neg hm, if_neg (fun h => hm h.symm)]
      simp
  | none =>
    unfold ilRowCounts
    by_cases hm : mid = mem.member_id
    · rw [if_pos hm.symm, hm, assocFind_append_of_none _ _ _ hfind, hfind,
        assocFind_cons, if_pos rfl]
      have hz : countsVec (initRow mem) = 0 := rfl
      simp [hf (initRow mem), hz]
    · rw [if_neg (fun h => hm h.symm), assocFind_append_singleton_ne _ _ _ _ hm]
      simp

/-- `ilNameStep` on an unmatched name leaves `by_member` alone. -/
theorem ilNameStep_none (members : List ILMember) (fallbackCh : String)
    (f : ILRow → ILRow) (st : List (String × ILRow) × Nat × Nat) (n : String)
    (hres : (ilMatch members n ((inferChamberFromName n).getD fallbackCh)).result = none) :
    ilNameStep members fallbackCh f st n =
      (st.1, st.2.1 + 1, st.2.2 +
        (if (ilMatch members n ((inferChamberFromName n).getD fallbackCh)).logged.isSome
         then 1 else 0)) := by
  unfold ilNameStep
  dsimp only
  rw [hres]

/-- `ilNameStep` on a matched name upserts that member's row. -/
theorem ilNameStep_some (members : List ILMember) (fallbackCh : String)
    (f : ILRow → ILRow) (st : List (String × ILRow) × Nat × Nat) (n : String)
    (mem : ILMember)
    (hres : (ilMatch members n ((inferChamberFromName n).getD fallbackCh)).result = some mem) :
    ilNameStep members fallbackCh f st n =
      (upsertRow st.1 mem f, st.2.1, st.2.2 +
        (if (ilMatch members n ((inferChamberFromName n).getD fallbackCh)).logged.isSome
         then 1 else 0)) := by
  unfold ilNameStep
  dsimp only
  rw [hres]

/-- The co-sponsor name fold adds the per-name match count times the bump
vector. -/
theorem ilRowCounts_nameFold (members : List ILMember) (names : List String)
    (fallbackCh : String) (f : ILRow → ILRow) (d : Nat × Nat × Nat × Nat × Nat)
    (hf : ∀ r, countsVec (f r) = countsVec r + d) (mid : String) :
    ∀ (st : List (String × ILRow) × Nat × Nat),
      ilRowCounts mid ((names.foldl (ilNameStep members fallbackCh f) st).1) =
        ilRowCounts mid st.1 + (countMatchedTo members names fallbackCh mid) • d := by
  induction names with
  | nil =>
    intro st
    simp [countMatchedTo]
  | cons n rest ih =>
    intro st
    rw [List.foldl_cons]
    cases hres : (ilMatch members n ((inferChamberFromName n).getD fallbackCh)).result with
    | none =>
      rw [ilNameStep_none members fallbackCh f st n hres, ih]
      have hcnt : countMatchedTo members (n :: rest) fallbackCh mid =
          countMatchedTo members rest fallbackCh mid := by
        unfold countMatchedTo
        rw [List.countP_cons]
        simp [hres]
      rw [hcnt]
    | some mem =>
      rw [ilNameStep_some members fallbackCh f st n mem hres, ih,
        ilRowCounts_upsert st.1 mem f d hf mid]
      have hcnt : countMatchedTo members (n :: rest) fallbackCh mid =
          (if mem.member_id = mid then 1 else 0) +
            countMatchedTo members rest fallbackCh mid := by
        unfold countMatchedTo
        rw [List.countP_cons]
        by_cases hm : mem.member_id = mid
        · simp [hres, hm]
          omega
        · simp [hres, hm]
      rw [hcnt, add_smul]
      by_cases hm : mem.member_id = mid
      · rw [if_pos hm, if_pos hm, one_smul]
        abel
      · rw [if_neg hm, if_neg hm, zero_smul]
        abel

theorem ilRowCounts_processNames (members : List ILMember)
    (byM : List (String × ILRow)) (names : List String) (fallbackCh : String)
    (f : ILRow → ILRow) (d : Nat × Nat × Nat × Nat × Nat)
    (hf : ∀ r, countsVec (f r) = countsVec r + d) (mid : String) :
    ilRowCounts mid (ilProcessNames members byM names fallbackCh f).1 =
      ilRowCounts mid byM + (countMatchedTo members names fallbackCh mid) • d := by
  unfold ilProcessNames
  exact ilRowCounts_nameFold members names fallbackCh f d hf mid (byM, 0, 0)

/-- One aggregation-loop step adds exactly the bill's contribution to every
member's counter vector. -/
theorem ilRowCounts_step (members : List ILMember) (st : ILAgg) (b : ILBill)
    (mid : String) :
    ilRowCounts mid (ilStep members st b).byMember =
      ilRowCounts mid st.byMember + ilContrib members b mid := by
  have hz : ((0, 0, 0, 0, 0) : Nat × Nat × Nat × Nat × Nat) = 0 := rfl
  have hf1 : ∀ r : ILRow, countsVec
      ({ r with sponsored_total := r.sponsored_total + 1,
                primary_sponsor_total := r.primary_sponsor_total + 1 }) =
      countsVec r + (1, 1, 0, 0, 0) := fun r => rfl
  have hf2 : ∀ r : ILRow, countsVec
      ({ r with chief_co_sponsor_total := r.chief_co_sponsor_total + 1 }) =
      countsVec r + (0, 0, 1, 0, 0) := fun r => rfl
  have hf3 : ∀ r : ILRow, countsVec
      ({ r with co_sponsor_total := r.co_sponsor_total + 1 }) =
      countsVec r + (0, 0, 0, 1, 0) := fun r => rfl
  have hf4 : ∀ r : ILRow, countsVec
      ({ r with enacted_total := r.enacted_total + 1,
                public_act_numbers := r.public_act_numbers ++ [b.public_act_number] }) =
      countsVec r + (0, 0, 0, 0, 1) := fun r => rfl
  unfold ilStep ilContrib
  dsimp only
  by_cases hpn : effectivePrimary b = ""
  · rw [if_pos hpn, if_pos hpn]
    rw [hz, add_zero]
  · rw [if_neg hpn, if_neg hpn]
    cases hres : (ilMatch members (effectivePrimary b)
        (chamberOfBillType (pyLowerS b.bill_type))).result with
    | none =>
      dsimp only
      rw [hz, add_zero]
    | some mem =>
      dsimp only
      by_cases hpa : b.public_act_number ≠ ""
      · rw [if_pos hpa]
        dsimp only
        rw [ilRowCounts_upsert _ mem _ (0, 0, 0, 0, 1) hf4 mid,
          ilRowCounts_processNames members _ _ _ _ (0, 0, 0, 1, 0) hf3 mid,
          ilRowCounts_processNames members _ _ _ _ (0, 0, 1, 0, 0) hf2 mid,
          ilRowCounts_upsert _ mem _ (1, 1, 0, 0, 0) hf1 mid]
        generalize ilRowCounts mid st.byMember = C
        obtain ⟨a1, a2, a3, a4, a5⟩ := C
        by_cases hm : mem.member_id = mid
        · have hpaif : (if (decide (mem.member_id = mid) &&
              decide (b.public_act_number ≠ "")) = true then (1 : Nat) else 0) = 1 := by
            simp [hm, hpa]
          rw [hpaif]
          simp only [if_pos hm, Prod.mk_add_mk, Prod.smul_mk, smul_eq_mul,
            mul_one, mul_zero, Prod.mk.injEq]
          all_goals omega
        · have hpaif : (if (decide (mem.member_id = mid) &&
              decide (b.public_act_number ≠ "")) = true then (1 : Nat) else 0) = 0 := by
            simp [hm]
          rw [hpaif]
          simp only [if_neg hm, add_zero, zero_add, Prod.mk_add_mk,
            Prod.smul_mk, smul_eq_mul, mul_one, mul_zero, Prod.mk.injEq]
      · rw [if_neg hpa]
        dsimp only
        rw [ilRowCounts_processNames members _ _ _ _ (0, 0, 0, 1, 0) hf3 mid,
          ilRowCounts_processNames members _ _ _ _ (0, 0, 1, 0, 0) hf2 mid,
          ilRowCounts_upsert _ mem _ (1, 1, 0, 0, 0) hf1 mid]
        generalize ilRowCounts mid st.byMember = C
        obtain ⟨a1, a2, a3, a4, a5⟩ := C
        have hpaif : (if (decide (mem.member_id = mid) &&
            decide (b.public_act_number ≠ "")) = true then (1 : Nat) else 0) = 0 := by
          simp [hpa]
        rw [hpaif]
        by_cases hm : mem.member_id = mid
        · simp only [if_pos hm, add_zero, zero_add, Prod.mk_add_mk,
            Prod.smul_mk, smul_eq_mul, mul_one, mul_zero, Prod.mk.injEq]
        · simp only [if_neg hm, add_zero, zero_add, Prod.mk_add_mk,
            Prod.smul_mk, smul_eq_mul, mul_one, mul_zero, Prod.mk.injEq]

/-- Aggregation from the empty state sums the per-bill contributions: each
bill contributes its own counter vector exactly once. -/
theorem ilRowCounts_foldl (members : List ILMember) (bills : List ILBill)
    (mid : String) :
    ∀ st : ILAgg,
      ilRowCounts mid ((bills.foldl (ilStep members) st).byMember) =
        ilRowCounts mid st.byMember +
          (bills.map (fun x => ilContrib members x mid)).sum := by
  induction bills with
  | nil => intro st; simp
  | cons x rest ih =>
    intro st
    rw [List.foldl_cons, ih, ilRowCounts_step, List.map_cons, List.sum_cons,
      add_assoc]

theorem ilRowCounts_aggregate (members : List ILMember) (bills : List ILBill)
    (mid : String) :
    ilRowCounts mid (ilAggregate members bills).byMember =
      (bills.map (fun x => ilContrib members x mid)).sum := by
  unfold ilAggregate
  rw [ilRowCounts_foldl]
  have h0 : ilRowCounts mid (ILAgg.mk [] [] 0 0).byMember = 0 := rfl
  rw [h0, zero_add]

/-- C2: with persisted bills `S` (nonempty distinct ids) and one new bill `b`
whose id is new, the step-4b merge of persisted and new records is exactly
`S ++ [b]`; re-running the aggregation over the merged set gives every member
the same counter vector as a single run over `S ++ [b]`, and that run's
counters are the sum of one contribution vector per bill, so no bill is
counted twice. -/
theorem c2_incremental_merge (members : List ILMember) (S : List ILBill)
    (b : ILBill)
    (h1 : ∀ x ∈ S, x.bill_id ≠ "") (h2 : (S.map ILBill.bill_id).Nodup)
    (h3 : b.bill_id ≠ "") (h4 : b.bill_id ∉ S.map ILBill.bill_id) :
    mergeBillsById S [b] [] = S ++ [b] ∧
    (∀ mid : String,
      ilRowCounts mid (ilAggregate members (mergeBillsById S [b] [])).byMember =
        ilRowCounts mid (ilAggregate members (S ++ [b])).byMember) ∧
    (∀ mid : String,
      ilRowCounts mid (ilAggregate members (S ++ [b])).byMember =
        ((S ++ [b]).map (fun x => ilContrib members x mid)).sum) := by
  have hm := mergeBillsById_fresh S b h1 h2 h3 h4
  exact ⟨hm, fun mid => by rw [hm],
    fun mid => ilRowCounts_aggregate members (S ++ [b]) mid⟩

theorem c2_incremental_merge_witness :
    (∀ x ∈ [exBill1], x.bill_id ≠ "") ∧
    ([exBill1].map ILBill.bill_id).Nodup ∧
    exBill2.bill_id ≠ "" ∧
    exBill2.bill_id ∉ [exBill1].map ILBill.bill_id ∧
    (mergeBillsById [exBill1] [exBill2] [] = [exBill1] ++ [exBill2] ∧
     ilRowCounts "104-house-2"
         (ilAggregate [exAlice, exBob]
           (mergeBillsById [exBill1] [exBill2] [])).byMember =
       ilRowCounts "104-house-2"
         (ilAggregate [exAlice, exBob] ([exBill1] ++ [exBill2])).byMember ∧
     ilRowCounts "104-house-2"
         (ilAggregate [exAlice, exBob] ([exBill1] ++ [exBill2])).byMember =
       (([exBill1] ++ [exBill2]).map
         (fun x => ilContrib [exAlice, exBob] x "104-house-2")).sum) := by
  refine ⟨by decide, by decide, by decide, by decide, ?_⟩
  have h := c2_incremental_merge [exAlice, exBob] [exBill1] exBill2
    (by decide) (by decide) (by decide) (by decide)
  exact ⟨h.1, h.2.1 "104-house-2", h.2.2 "104-house-2"⟩

end CBS
